import Mathlib

set_option maxRecDepth 10000

/-!
Verification of the curation pipeline in `super_rss_curator_json.py`.

The Python source is shallowly embedded: articles and configuration tables
become structures, the mutable walk of `deduplicate_articles` becomes a fold
over an explicit state, Python's stable `sorted` becomes `List.mergeSort`,
dictionaries become association lists with replace-in-place insertion, and
the external scoring oracle becomes a function parameter giving the outcome
of each batch call (`none` models a transport error or unparsable payload).
Timestamps are integers (seconds); the md5 url fingerprint is modelled by the
injective embedding that keeps the link itself as the hash value, which
preserves the equality tests that are the only use the source makes of it.
-/

namespace SuperRss

/-! ### String similarity: model of `fuzzywuzzy.fuzz`

`fuzz.ratio` is `int(round(100 * ratio))` where, under the
`python-Levenshtein` backend, `ratio = (lensum - dist)/lensum` with `dist`
the edit distance at substitution cost 2, i.e. `ratio = 2·LCS/lensum`.
Rounding is modelled as round-half-up on rationals.  Both `fuzz.ratio` and
`fuzz.token_sort_ratio` return 0 when either input string is empty
(`utils.check_empty_string`). -/

/-- One row update of the longest-common-subsequence table: given the
previous row (for the shorter `a`-prefix), produce the tail of the next row.
`diag` is the previous row's entry one position back, `lft` the entry just
written in the new row. -/
def lcsRow (c : Char) : List Char → List Nat → Nat → Nat → List Nat
  | [], _, _, _ => []
  | b :: bs, prow, diag, lft =>
    let up := prow.headD 0
    let cur := if c = b then diag + 1 else max lft up
    cur :: lcsRow c bs prow.tail up cur

/-- Longest-common-subsequence length via the standard row-by-row table. -/
def lcsLen (a b : List Char) : Nat :=
  (a.foldl (fun row c => 0 :: lcsRow c b row.tail (row.headD 0) 0)
    (List.replicate (b.length + 1) 0)).getLastD 0

/-- `int(round(100 * 2*m/T))`, as round-half-up on rationals. -/
def intr100 (m T : Nat) : Nat := (400 * m + T) / (2 * T)

/-- `fuzz.ratio` on character lists: 0 when either side is empty, else the
rounded percentage `2·LCS/(len₁+len₂)`. -/
def fuzzRatioChars (s1 s2 : List Char) : Nat :=
  if s1 = [] ∨ s2 = [] then 0
  else intr100 (lcsLen s1 s2) (s1.length + s2.length)

/-- `fuzz.ratio` on strings. -/
def fuzzRatio (s1 s2 : String) : Nat := fuzzRatioChars s1.data s2.data

/-- A regex `\w` word character: alphanumeric or underscore (ASCII model). -/
def isWordChar (c : Char) : Bool := c.isAlphanum || c = '_'

/-- Python `str.strip()` on a character list. -/
def pyStrip (l : List Char) : List Char :=
  ((l.dropWhile Char.isWhitespace).reverse.dropWhile Char.isWhitespace).reverse

/-- `utils.full_process`: non-word characters become spaces, then lowercase,
then strip. -/
def fullProcessChars (l : List Char) : List Char :=
  pyStrip (l.map (fun c => if isWordChar c then c.toLower else ' '))

/-- Python `str.split()` restricted to space separators (after
`fullProcessChars` every whitespace character has become a space):
runs of spaces separate tokens, empty tokens are dropped. -/
def splitSpaces : List Char → List Char → List (List Char)
  | [], acc => if acc = [] then [] else [acc.reverse]
  | c :: cs, acc =>
    if c = ' ' then
      (if acc = [] then splitSpaces cs [] else acc.reverse :: splitSpaces cs [])
    else splitSpaces cs (c :: acc)

/-- Lexicographic order on character lists by code point, Python's string
order used by `sorted(tokens)`. -/
def charListLe (a b : List Char) : Bool :=
  match a, b with
  | [], _ => true
  | _ :: _, [] => false
  | x :: xs, y :: ys => if x = y then charListLe xs ys else decide (x < y)

/-- `" ".join(tokens)`. -/
def joinSpaces : List (List Char) → List Char
  | [] => []
  | [t] => t
  | t :: ts => t ++ ' ' :: joinSpaces ts

/-- `fuzzywuzzy.fuzz._process_and_sort`: full-process, split into tokens,
sort, re-join, strip.  Python's `sorted` is a stable sort; for a total
preorder a stable sort is unique, so `List.insertionSort` (which is stable)
models it exactly. -/
def processAndSort (l : List Char) : List Char :=
  pyStrip (joinSpaces ((splitSpaces (fullProcessChars l) []).insertionSort
    (fun a b => charListLe a b = true)))

/-- `fuzz.token_sort_ratio`: 0 when either raw input is empty, else the
plain ratio of the processed-and-sorted token strings. -/
def tokenSortRatio (s1 s2 : String) : Nat :=
  if s1.data = [] ∨ s2.data = [] then 0
  else fuzzRatioChars (processAndSort s1.data) (processAndSort s2.data)

/-- The Deduplicator's similarity measure (`deduplicate_articles`, lines
572-575): the maximum of `fuzz.ratio` and `fuzz.token_sort_ratio` of the two
normalized titles. -/
def similarity (s1 s2 : String) : Nat := max (fuzzRatio s1 s2) (tokenSortRatio s1 s2)

/-! ### Data model

`Article.__init__` computes `url_hash = md5(link)` and
`title_normalized = title.lower().strip()`.  The hash is kept abstract as a
field; the smart constructor `mkArticle` fills it with the link itself,
modelling the md5 hex digest by an injective embedding (the source only ever
compares hashes for equality). -/

structure Article where
  title : String
  link : String
  description : String
  pubDate : Int
  source : String
  sourceUrl : String
  score : Int
  category : Option String
  urlHash : String
  titleNormalized : String
deriving DecidableEq, Repr

/-- Python `title.lower().strip()` (ASCII lowercase model). -/
def normalizeTitle (s : String) : String := ⟨pyStrip (s.data.map Char.toLower)⟩

/-- Build an `Article` the way `Article.__init__` derives its fields from a
raw entry, with the md5 url hash modelled as the link itself. -/
def mkArticle (title link description source : String) (score : Int)
    (category : Option String) : Article :=
  { title := title
    link := link
    description := description
    pubDate := 0
    source := source
    sourceUrl := ""
    score := score
    category := category
    urlHash := link
    titleNormalized := normalizeTitle title }

/-- A row of the `source_types` table of `source_preferences.json`
(`score_adjustment` and `max_per_source` are read with `.get`, hence
optional). -/
structure SourceTypeCfg where
  scoreAdjustment : Option Int
  maxPerSource : Option Int
deriving DecidableEq, Repr

/-- `source_preferences.json`: a source-name → type-name map and a
type-name → configuration table. -/
structure SourcePrefs where
  sourceMap : List (String × String)
  sourceTypes : List (String × SourceTypeCfg)
deriving DecidableEq, Repr

/-! ### `_source_priority` (lines 534-548) -/

/-- `_source_priority`: sort key for dedup ordering, lower = processed first
= wins ties.  `localPriorityScore` is `LIMITS.get('local_priority_score', 100)`. -/
def sourcePriority (prefs : SourcePrefs) (localPriorityScore : Int)
    (a : Article) : Nat :=
  let st := List.lookup a.source prefs.sourceMap
  if st = some "preferred_local" then 0
  else if a.category = some "local" ∨ a.score = localPriorityScore then 1
  else if st = some "print" then 2
  else if st = some "broadcast" then 4
  else 3

/-! ### `deduplicate_articles` (lines 551-592)

The loop state: `seen_urls` (a set), `seen_titles` (an insertion-ordered
dict from normalized title to the kept article), `unique` (the output
list).  Python dict assignment replaces the value in place when the key
exists and appends otherwise; `dict.pop` removes the key; `list.remove`
removes the first occurrence. -/

structure DedupState where
  seenUrls : List String
  seenTitles : List (String × Article)
  unique : List Article
deriving DecidableEq, Repr

/-- `set.add`. -/
def setAdd (x : String) (s : List String) : List String :=
  if x ∈ s then s else s ++ [x]

/-- Python dict assignment `d[k] = v`: replace in place or append. -/
def dictInsert (k : String) (v : Article) (d : List (String × Article)) :
    List (String × Article) :=
  if (d.find? (fun p => p.1 = k)).isSome then
    d.map (fun p => if p.1 = k then (k, v) else p)
  else d ++ [(k, v)]

/-- Python `dict.pop k`: drop the entry with key `k`. -/
def dictPop (k : String) (d : List (String × Article)) : List (String × Article) :=
  d.eraseP (fun p => decide (p.1 = k))

/-- The inner `for seen_title, seen_article in seen_titles.items()` loop:
the first kept entry whose similarity with the candidate's normalized title
exceeds 85 (the loop breaks at the first match). -/
def findFirstSimilar (cand : String) (d : List (String × Article)) :
    Option (String × Article) :=
  d.find? (fun p => 85 < similarity cand p.1)

/-- One iteration of the `for article in sorted_articles` loop of
`deduplicate_articles`: skip exact url duplicates; on a fuzzy match against
kept article `k`, either supersede `k` (when the candidate's priority rank
is strictly lower) or discard the candidate; otherwise keep the candidate. -/
def dedupStep (prio : Article → Nat) (st : DedupState) (a : Article) : DedupState :=
  if a.urlHash ∈ st.seenUrls then st
  else
    match findFirstSimilar a.titleNormalized st.seenTitles with
    | none =>
        { seenUrls := setAdd a.urlHash st.seenUrls
          seenTitles := dictInsert a.titleNormalized a st.seenTitles
          unique := st.unique ++ [a] }
    | some (t, k) =>
        if prio a < prio k then
          { seenUrls := setAdd a.urlHash st.seenUrls
            seenTitles := dictInsert a.titleNormalized a (dictPop t st.seenTitles)
            unique := (st.unique.erase k) ++ [a] }
        else st

/-- The walk of `deduplicate_articles` over an already-sorted batch. -/
def dedupRun (prio : Article → Nat) (l : List Article) : DedupState :=
  l.foldl (dedupStep prio) ⟨[], [], []⟩

/-- The priority preorder used by `sorted(articles, key=_source_priority)`. -/
def prioLe (prio : Article → Nat) (x y : Article) : Prop := prio x ≤ prio y

instance (prio : Article → Nat) : DecidableRel (prioLe prio) :=
  fun x y => inferInstanceAs (Decidable (prio x ≤ prio y))

instance (prio : Article → Nat) : IsTotal Article (prioLe prio) :=
  ⟨fun a b => Nat.le_total (prio a) (prio b)⟩

instance (prio : Article → Nat) : IsTrans Article (prioLe prio) :=
  ⟨fun _ _ _ h1 h2 => Nat.le_trans h1 h2⟩

/-- `deduplicate_articles`: stable-sort by `_source_priority` ascending,
then walk the batch accumulating the unique list.  Python's `sorted` is a
stable sort, modelled by `List.insertionSort` (stable sorts under a total
preorder agree). -/
def deduplicateArticles (prefs : SourcePrefs) (localPriorityScore : Int)
    (arts : List Article) : List Article :=
  (dedupRun (sourcePriority prefs localPriorityScore)
    (arts.insertionSort (prioLe (sourcePriority prefs localPriorityScore)))).unique

/-! ### Substring search and keyword matching

Python's `needle in haystack` on strings. -/

/-- Whether `needle` is an initial segment of the haystack. -/
def charsStartWith : List Char → List Char → Bool
  | [], _ => true
  | _ :: _, [] => false
  | a :: as, b :: bs => a = b && charsStartWith as bs

/-- Whether `needle` occurs contiguously in the haystack. -/
def charsContain (needle : List Char) : List Char → Bool
  | [] => needle.isEmpty
  | c :: rest => charsStartWith needle (c :: rest) || charsContain needle rest

/-- Python `needle in hay` for strings. -/
def strContains (hay needle : String) : Bool := charsContain needle.data hay.data

/-- Python `str.lower()` (ASCII model). -/
def pyLower (s : String) : String := ⟨s.data.map Char.toLower⟩

/-! ### Score cache (`load_scored_cache`, lines 181-201) -/

/-- One value of the scored-articles cache file: `{score, category, timestamp}`. -/
structure CacheEntry where
  score : Int
  category : String
  timestamp : Int
deriving DecidableEq, Repr

/-- `load_scored_cache`: keep entries whose `timestamp` is strictly newer
than `now - expiry`. -/
def loadScoredCache (raw : List (String × CacheEntry)) (now expirySeconds : Int) :
    List (String × CacheEntry) :=
  raw.filter (fun p => now - expirySeconds < p.2.timestamp)

/-- Python dict assignment `d[k] = v` for an arbitrary value type. -/
def upsert {β : Type} (k : String) (v : β) (d : List (String × β)) :
    List (String × β) :=
  if (d.find? (fun p => p.1 = k)).isSome then
    d.map (fun p => if p.1 = k then (k, v) else p)
  else d ++ [(k, v)]

/-! ### `categorize_article` (lines 595-612) -/

/-- One entry of `category_rules.json`: include and exclude keyword lists. -/
structure CategoryRule where
  includeKw : List String
  excludeKw : List String
deriving DecidableEq, Repr

/-- `categorize_article`: first configured category (that is also in the
category set) whose include list matches the text and whose exclude list
does not. -/
def categorizeArticle (categories : List String) (rules : List (String × CategoryRule))
    (title description : String) : Option String :=
  let text := pyLower (title ++ " " ++ description)
  (rules.find? (fun p =>
      decide (p.1 ∈ categories)
      && p.2.includeKw.any (fun kw => strContains text kw)
      && !(p.2.excludeKw.any (fun kw => strContains text kw)))).map (fun p => p.1)

/-! ### `score_articles_with_claude` (lines 615-729)

The oracle is the outcome of each batch call, indexed by batch number:
`none` models a transport error or a JSON parsing error (both `except`
branches assign score 50 and category news to the whole batch); `some l`
models a successfully parsed JSON array of `{"article", "score", "category"}`
records, which the loop applies entry by entry, skipping out-of-range
indices. -/

/-- One record of a parsed oracle response. `category` is read with `.get`. -/
structure OracleScore where
  article : Int
  score : Int
  category : Option String
deriving DecidableEq, Repr

/-- Split into consecutive batches of `n` (`range(0, len, n)` slicing),
driven by a length fuel so that the definition reduces structurally.
Assumes `n > 0`, as with the source's batch size of 10. -/
def chunksOf (n : Nat) (l : List α) : List (List α) := go l.length l
where
  go : Nat → List α → List (List α)
    | _, [] => []
    | 0, _ :: _ => []
    | fuel + 1, x :: xs => (x :: xs).take n :: go fuel ((x :: xs).drop n)

/-- The batches sent to the oracle: the cache misses, in input order, in
slices of 10. -/
def oracleBatches (cache : List (String × CacheEntry)) (articles : List Article) :
    List (List Article) :=
  chunksOf 10 (articles.filter (fun a => (List.lookup a.urlHash cache).isNone))

/-- One iteration of the `for score_data in scores` loop: skip records with
an out-of-range 1-based index; otherwise annotate the indexed batch article,
validating the category against the configured set (falling back to
`categorize_article`, then news), append it, and update the cache. -/
def oracleEntryStep (categories : List String) (rules : List (String × CategoryRule))
    (now : Int) (batch : List Article)
    (ac : List Article × List (String × CacheEntry)) (sd : OracleScore) :
    List Article × List (String × CacheEntry) :=
  if sd.article - 1 < 0 then ac
  else
    match batch[(sd.article - 1).toNat]? with
    | none => ac
    | some a =>
        let cat0 := sd.category.getD "news"
        let cat := if cat0 ∈ categories then cat0
          else (categorizeArticle categories rules a.title a.description).getD "news"
        (ac.1 ++ [{ a with score := sd.score, category := some cat }],
         upsert a.urlHash ⟨sd.score, cat, now⟩ ac.2)

/-- Process one batch's oracle outcome: on failure every batch article is
appended with score 50 and category news; on success the response records
are applied entry by entry. -/
def applyOracleScores (categories : List String) (rules : List (String × CategoryRule))
    (now : Int) (batch : List Article) (resp : Option (List OracleScore))
    (acc : List Article × List (String × CacheEntry)) :
    List Article × List (String × CacheEntry) :=
  match resp with
  | none => (acc.1 ++ batch.map (fun a => { a with score := 50, category := some "news" }), acc.2)
  | some scores => scores.foldl (oracleEntryStep categories rules now batch) acc

/-- Fold the batch loop over the list of batches, numbering the oracle calls. -/
def runBatches (categories : List String) (rules : List (String × CategoryRule))
    (oracle : Nat → Option (List OracleScore)) (now : Int) :
    Nat → List (List Article) → List Article × List (String × CacheEntry) →
    List Article × List (String × CacheEntry)
  | _, [], acc => acc
  | i, b :: bs, acc =>
      runBatches categories rules oracle now (i + 1) bs
        (applyOracleScores categories rules now b (oracle i) acc)

/-- The cache-hit partition of the scorer: articles whose fingerprint is in
the valid cache, annotated with exactly the cached score and category, in
input order. -/
def scoredCacheHits (cache : List (String × CacheEntry)) (articles : List Article) :
    List Article :=
  articles.filterMap (fun a =>
    (List.lookup a.urlHash cache).map (fun e =>
      { a with score := e.score, category := some e.category }))

/-- `score_articles_with_claude` on an already-loaded valid cache: articles
whose fingerprint is cached get exactly the cached score and category; the
rest are batched to the oracle.  Returns the scored list and the updated
cache (which the source then persists). -/
def scoreArticlesWithClaude (categories : List String)
    (rules : List (String × CategoryRule)) (oracle : Nat → Option (List OracleScore))
    (cache : List (String × CacheEntry)) (now : Int) (articles : List Article) :
    List Article × List (String × CacheEntry) :=
  runBatches categories rules oracle now 0 (oracleBatches cache articles)
    (scoredCacheHits cache articles, cache)

/-! ### `enforce_local_priority` (lines 732-756) -/

/-- The per-article local-priority override: articles whose text contains a
local signal are forced to score ≥ 80 and category local. -/
def enforceOne (signalsLower : List String) (a : Article) : Article :=
  let text := pyLower (a.title ++ " " ++ a.description)
  if signalsLower.any (fun s => strContains text s) then
    { a with score := if a.score < 80 then 80 else a.score, category := some "local" }
  else a

/-- `enforce_local_priority`: lower the configured signals, return the input
unchanged when there are none, else apply the override to every article. -/
def enforceLocalPriority (localSignals : List String) (articles : List Article) :
    List Article :=
  if localSignals.map pyLower = [] then articles
  else articles.map (enforceOne (localSignals.map pyLower))

/-! ### `apply_source_preferences` (lines 759-775) -/

/-- The per-article source-preference adjustment: a nonzero configured
`score_adjustment` for the article's source type is added, clamped to
`[0, 100]`. -/
def adjustOne (prefs : SourcePrefs) (a : Article) : Article :=
  match List.lookup a.source prefs.sourceMap with
  | none => a
  | some st =>
      if st = "" then a
      else
        match List.lookup st prefs.sourceTypes with
        | none => a
        | some cfg =>
            let adjustment := cfg.scoreAdjustment.getD 0
            if adjustment = 0 then a
            else { a with score := max 0 (min 100 (a.score + adjustment)) }

/-- `apply_source_preferences` over a list of articles. -/
def applySourcePreferences (prefs : SourcePrefs) (articles : List Article) :
    List Article :=
  articles.map (adjustOne prefs)

/-! ### `apply_diversity_limits` (lines 778-806) -/

/-- The per-category limits used by the Diversity Limiter
(`limits.json`: `max_per_source`, `max_per_local`). -/
structure Limits where
  maxPerSource : Int
  maxPerLocal : Int
deriving DecidableEq, Repr

/-- The per-source cap: the source type's `max_per_source` override when the
source is mapped to a configured type, else the category default. -/
def capForSource (prefs : SourcePrefs) (defaultMax : Int) (src : String) : Int :=
  match List.lookup src prefs.sourceMap with
  | none => defaultMax
  | some st =>
      if st = "" then defaultMax
      else
        match List.lookup st prefs.sourceTypes with
        | none => defaultMax
        | some cfg => cfg.maxPerSource.getD defaultMax

/-- The score-descending order of `sorted(articles, key=score, reverse=True)`. -/
def scoreDescLe (x y : Article) : Prop := y.score ≤ x.score

instance : DecidableRel scoreDescLe :=
  fun x y => inferInstanceAs (Decidable (y.score ≤ x.score))

instance : IsTotal Article scoreDescLe := ⟨fun a b => le_total b.score a.score⟩

instance : IsTrans Article scoreDescLe := ⟨fun _ _ _ h1 h2 => le_trans h2 h1⟩

/-- One iteration of the greedy admission loop: keep the article when its
source's running count is below the source's cap. -/
def divStep (cap : String → Int) (acc : List Article × (String → Nat)) (a : Article) :
    List Article × (String → Nat) :=
  if (acc.2 a.source : Int) < cap a.source then
    (acc.1 ++ [a], fun s => if s = a.source then acc.2 s + 1 else acc.2 s)
  else acc

/-- `apply_diversity_limits`: stable-sort by score descending and admit
greedily under the per-source caps; the category default is `max_per_local`
for the local category and `max_per_source` otherwise. -/
def applyDiversityLimits (prefs : SourcePrefs) (limits : Limits)
    (articles : List Article) (category : String) : List Article :=
  ((articles.insertionSort scoreDescLe).foldl
    (divStep (capForSource prefs
      (if category = "local" then limits.maxPerLocal else limits.maxPerSource)))
    ([], fun _ => 0)).1

/-! ### Feed merge in `main` (lines 1348-1391)

Retained persisted items and the diversity-limited new items are
concatenated (new first), sorted by publication date descending, and
truncated to the feed size.  There is no fingerprint-based deduplication in
this merge. -/

/-- The date-descending order of `all_items.sort(key=pub_date, reverse=True)`. -/
def pubDateDescLe (x y : Article) : Prop := y.pubDate ≤ x.pubDate

instance : DecidableRel pubDateDescLe :=
  fun x y => inferInstanceAs (Decidable (y.pubDate ≤ x.pubDate))

instance : IsTotal Article pubDateDescLe := ⟨fun a b => le_total b.pubDate a.pubDate⟩

instance : IsTrans Article pubDateDescLe := ⟨fun _ _ _ h1 h2 => le_trans h2 h1⟩

/-- The merge step of `main` for one category:
`all_items = diverse_new + existing; sort by pub_date desc; truncate`. -/
def mergeFeed (maxFeedSize : Nat) (diverseNew existingItems : List Article) :
    List Article :=
  ((diverseNew ++ existingItems).insertionSort pubDateDescLe).take maxFeedSize

/-! ### Podcast feeds (`generate_podcast_feed`, lines 972-1198, and the
shown-cache bookkeeping of `main`, lines 1332-1344)

`CachedArticle` re-hydrates one weekly-cache record; the podcast shown
cache maps a url to `{day, shown_at}`; the theme score cache maps
`f"{link}:::{label}"` to `{score, cached_at}`.  The theme-scoring oracle is
again the outcome of each batch call. -/

/-- A weekly-cache record as re-hydrated by `CachedArticle.__init__`. -/
structure PodArticle where
  title : String
  link : String
  description : String
  pubDate : Int
  source : String
  sourceUrl : String
  score : Int
  category : String
  image : Option String
deriving DecidableEq, Repr

/-- One podcast-shown-cache value: `{"day": ..., "shown_at": ...}`. -/
structure ShownEntry where
  day : String
  shownAt : Int
deriving DecidableEq, Repr

/-- One theme-score-cache value: `{"score": ..., "cached_at": ...}`. -/
structure ThemeCacheEntry where
  score : Int
  cachedAt : Int
deriving DecidableEq, Repr

/-- One record of a parsed theme-scoring response
(`{"article": i, "theme_score": s}`; the score is read with `.get`). -/
structure ThemeScoreData where
  article : Int
  themeScore : Option Int
deriving DecidableEq, Repr

/-- One day of `podcast_schedule.json`.  The day's description and scoring
prompt only shape the oracle prompt text, which the oracle parameter
abstracts, so they are not carried here. -/
structure DayConfig where
  categories : List String
  label : String
deriving DecidableEq, Repr

/-- `podcast_schedule.json`; all numeric knobs are read with `.get` and a
default, hence optional. -/
structure PodcastSchedule where
  enabled : Bool
  schedule : List (String × DayConfig)
  maxArticles : Option Int
  minScore : Option Int
  includeBonus : Option Int
  bonusMinScore : Option Int
  bonusMaxPerCategory : Option Int
  aiTechPenalty : Option Int
deriving DecidableEq, Repr

/-- `PODCAST_SHOWN_TTL_DAYS = 7`, in seconds. -/
def podcastShownTtlSeconds : Int := 7 * 86400

/-- `load_podcast_shown_cache`: keep entries shown strictly later than
`now` minus the 7-day TTL. -/
def loadPodcastShownCache (raw : List (String × ShownEntry)) (now : Int) :
    List (String × ShownEntry) :=
  raw.filter (fun p => now - podcastShownTtlSeconds < p.2.shownAt)

/-- The shown-cache update of `main`: every selected url is recorded with
today's theme day and the current time. -/
def markShown (day : String) (now : Int) (urls : List String)
    (cache : List (String × ShownEntry)) : List (String × ShownEntry) :=
  urls.foldl (fun c u => upsert u ⟨day, now⟩ c) cache

/-- The theme-score cache key `f"{article.link}:::{theme_label}"`. -/
def themeKey (link label : String) : String := link ++ ":::" ++ label

/-- `save_theme_score_cache` pruning: drop entries older than the 7-day TTL. -/
def pruneThemeCache (cutoff : Int) (c : List (String × ThemeCacheEntry)) :
    List (String × ThemeCacheEntry) :=
  c.filter (fun p => cutoff ≤ p.2.cachedAt)

/-- One iteration of the theme-scoring response loop: skip out-of-range
records, else append the indexed article with its theme score and cache it. -/
def themeEntryStep (label : String) (now : Int) (batch : List PodArticle)
    (ac : List (PodArticle × Int) × List (String × ThemeCacheEntry))
    (sd : ThemeScoreData) :
    List (PodArticle × Int) × List (String × ThemeCacheEntry) :=
  if sd.article - 1 < 0 then ac
  else
    match batch[(sd.article - 1).toNat]? with
    | none => ac
    | some a =>
        (ac.1 ++ [(a, sd.themeScore.getD 0)],
         upsert (themeKey a.link label) ⟨sd.themeScore.getD 0, now⟩ ac.2)

/-- One batch of `score_articles_for_theme`: on failure every batch article
gets theme score 50; on success each in-range response record is applied
and cached; afterwards the post-loop fallback appends a score of 50 for
every batch article whose link was not covered, so none are dropped. -/
def themeBatch (label : String) (now : Int) (batch : List PodArticle)
    (resp : Option (List ThemeScoreData))
    (acc : List (PodArticle × Int) × List (String × ThemeCacheEntry)) :
    List (PodArticle × Int) × List (String × ThemeCacheEntry) :=
  let pre :=
    match resp with
    | none => (acc.1 ++ batch.map (fun a => (a, 50)), acc.2)
    | some scores => scores.foldl (themeEntryStep label now batch) acc
  let scoredLinks := (pre.1.drop acc.1.length).map (fun p => p.1.link)
  (pre.1 ++ (batch.filter (fun a => !(scoredLinks.contains a.link))).map (fun a => (a, 50)),
   pre.2)

/-- The batch loop of `score_articles_for_theme`. -/
def runThemeBatches (label : String) (now : Int)
    (oracle : Nat → Option (List ThemeScoreData)) :
    Nat → List (List PodArticle) →
    List (PodArticle × Int) × List (String × ThemeCacheEntry) →
    List (PodArticle × Int) × List (String × ThemeCacheEntry)
  | _, [], acc => acc
  | i, b :: bs, acc =>
      runThemeBatches label now oracle (i + 1) bs (themeBatch label now b (oracle i) acc)

/-- `score_articles_for_theme`: split into cache hits and misses, batch the
misses to the oracle, and return the scored pairs together with the cache
as persisted (`save_theme_score_cache` prunes by TTL; the early return on an
empty input skips both the call and the save). -/
def scoreArticlesForTheme (oracle : Nat → Option (List ThemeScoreData))
    (cache : List (String × ThemeCacheEntry)) (label : String) (now : Int)
    (articles : List PodArticle) :
    List (PodArticle × Int) × List (String × ThemeCacheEntry) :=
  if articles = [] then ([], cache)
  else
    let hits := articles.filterMap (fun a =>
      (List.lookup (themeKey a.link label) cache).map (fun e => (a, e.score)))
    let uncached := articles.filter (fun a =>
      (List.lookup (themeKey a.link label) cache).isNone)
    let r := runThemeBatches label now oracle 0 (chunksOf 10 uncached) (hits, cache)
    (r.1, pruneThemeCache (now - 7 * 86400) r.2)

/-- The hardcoded rural/local context signal list of `generate_podcast_feed`. -/
def ruralContextSignals : List String :=
  ["rural", "community", "small town", "local", "municipal", "civic",
   "off-grid", "remote", "broadband", "connectivity", "digital equity",
   "precision agriculture", "farm", "forestry", "ranch", "mining",
   "wildfire", "emergency", "telehealth", "education", "indigenous",
   "first nation", "co-op", "cooperative", "volunteer", "non-profit",
   "williams lake", "cariboo", "quesnel", "100 mile house",
   "horsefly", "lac la hache", "chilcotin", "bella coola",
   "resource", "homestead", "self-hosted", "mesh network", "meshtastic",
   "lora", "solar", "off grid", "preparedness", "resilience"]

/-- `_keyword_match_count` (lines 860-863). -/
def keywordMatchCount (text : String) (keywords : List String) : Nat :=
  (keywords.filter (fun kw => strContains (pyLower text) (pyLower kw))).length

/-- Final-score-descending order on `(article, final_score, theme_score)`. -/
def finalScoreDescLe (x y : PodArticle × Int × Int) : Prop := y.2.1 ≤ x.2.1

instance : DecidableRel finalScoreDescLe :=
  fun x y => inferInstanceAs (Decidable (y.2.1 ≤ x.2.1))

/-- Theme-score-descending order on `(article, theme_score, category)`. -/
def themeScoreDescLe (x y : PodArticle × Int × String) : Prop := y.2.1 ≤ x.2.1

instance : DecidableRel themeScoreDescLe :=
  fun x y => inferInstanceAs (Decidable (y.2.1 ≤ x.2.1))

/-- The bonus-pick loop: skip articles whose category has reached the
per-category cap, append as `(article, theme_score, theme_score)`, stop once
`include_bonus` picks have been made. -/
def pickBonus (maxPerCat includeBonus : Int) :
    List (PodArticle × Int × String) → List (PodArticle × Int × Int) →
    (String → Int) → List (PodArticle × Int × Int)
  | [], picked, _ => picked
  | (a, ts, cat) :: rest, picked, counts =>
      if maxPerCat ≤ counts cat then pickBonus maxPerCat includeBonus rest picked counts
      else
        if includeBonus ≤ ((picked ++ [(a, ts, ts)]).length : Int) then
          picked ++ [(a, ts, ts)]
        else
          pickBonus maxPerCat includeBonus rest (picked ++ [(a, ts, ts)])
            (fun c => if c = cat then counts c + 1 else counts c)

/-- The theme pool: weekly-cache articles in the day's categories, meeting
the minimum quality score, and not shown in a recent podcast episode. -/
def podThemePool (cfg : PodcastSchedule) (today : DayConfig)
    (cachedArticles : List PodArticle) (shownCache : List (String × ShownEntry)) :
    List PodArticle :=
  ((cachedArticles.filter (fun a => today.categories.contains a.category)).filter
      (fun a => decide (cfg.minScore.getD 25 ≤ a.score))).filter
      (fun a => (List.lookup a.link shownCache).isNone)

/-- The theme-scored pool, with the fallback to plain quality scores when
theme scoring returned nothing despite a non-empty pool. -/
def podThemeScored (cfg : PodcastSchedule) (today : DayConfig)
    (cachedArticles : List PodArticle) (shownCache : List (String × ShownEntry))
    (themeCache : List (String × ThemeCacheEntry))
    (oracle : Nat → Option (List ThemeScoreData)) (now : Int) :
    List (PodArticle × Int) :=
  if (scoreArticlesForTheme oracle themeCache today.label now
        (podThemePool cfg today cachedArticles shownCache)).1 = [] ∧
      podThemePool cfg today cachedArticles shownCache ≠ [] then
    (podThemePool cfg today cachedArticles shownCache).map (fun a => (a, a.score))
  else
    (scoreArticlesForTheme oracle themeCache today.label now
      (podThemePool cfg today cachedArticles shownCache)).1

/-- The rural-context penalty pass: ai-tech articles without any rural or
local signal keyword have their theme score reduced by the penalty, floored
at 0; tuples are `(article, final_score, theme_score)`. -/
def podScoredPool (aiTechPenalty : Int) (themeScored : List (PodArticle × Int)) :
    List (PodArticle × Int × Int) :=
  themeScored.map (fun p =>
    (p.1,
     if p.1.category = "ai-tech" ∧
         ¬ 0 < keywordMatchCount (p.1.title ++ " " ++ p.1.description)
           ruralContextSignals then
       max 0 (p.2 - aiTechPenalty)
     else p.2,
     p.2))

/-- The theme picks: the penalized pool sorted by final score descending,
truncated to `max_articles`. -/
def podThemePicks (cfg : PodcastSchedule) (today : DayConfig)
    (cachedArticles : List PodArticle) (shownCache : List (String × ShownEntry))
    (themeCache : List (String × ThemeCacheEntry))
    (oracle : Nat → Option (List ThemeScoreData)) (now : Int) :
    List (PodArticle × Int × Int) :=
  ((podScoredPool (cfg.aiTechPenalty.getD 30)
      (podThemeScored cfg today cachedArticles shownCache themeCache oracle now)).insertionSort
    finalScoreDescLe).take (cfg.maxArticles.getD 10).toNat

/-- The bonus picks: high-scoring articles from outside the theme's
categories, not already selected and not recently shown, theme-scored (the
second oracle pass sees the theme cache as persisted by the first), sorted
by theme score descending, picked greedily under the per-category cap until
`include_top_from_other` entries are chosen. -/
def podBonusPicks (cfg : PodcastSchedule) (today : DayConfig)
    (cachedArticles : List PodArticle) (shownCache : List (String × ShownEntry))
    (themeCache : List (String × ThemeCacheEntry))
    (oracle oracle2 : Nat → Option (List ThemeScoreData)) (now : Int) :
    List (PodArticle × Int × Int) :=
  if 0 < cfg.includeBonus.getD 0 then
    let other := cachedArticles.filter (fun a =>
      !(today.categories.contains a.category) && decide (cfg.bonusMinScore.getD 70 ≤ a.score))
    let themeUrls := (podThemePicks cfg today cachedArticles shownCache themeCache
      oracle now).map (fun e => e.1.link)
    let otherFiltered := other.filter (fun a =>
      !(themeUrls.contains a.link) && (List.lookup a.link shownCache).isNone)
    if otherFiltered = [] then []
    else
      let secondPass := scoreArticlesForTheme oracle2
        (scoreArticlesForTheme oracle themeCache today.label now
          (podThemePool cfg today cachedArticles shownCache)).2
        today.label now otherFiltered
      let catLookup := fun link =>
        (List.lookup link ((otherFiltered.map
            (fun a => (a.link, a.category))).reverse)).getD "news"
      let sortedOther := (secondPass.1.map
        (fun p => (p.1, p.2, catLookup p.1.link))).insertionSort themeScoreDescLe
      pickBonus (cfg.bonusMaxPerCategory.getD 2) (cfg.includeBonus.getD 0) sortedOther []
        (fun _ => 0)
  else []

/-- `generate_podcast_feed`, as the list of selected
`(article, final_score, theme_score)` entries (theme picks then bonus
picks); the JSON rendering and the returned url set are derived from it.
The api-key presence check is assumed satisfied. -/
def generatePodcastFeed (cfg : PodcastSchedule) (themeName : String)
    (cachedArticles : List PodArticle) (shownCache : List (String × ShownEntry))
    (themeCache : List (String × ThemeCacheEntry))
    (oracle oracle2 : Nat → Option (List ThemeScoreData)) (now : Int) :
    List (PodArticle × Int × Int) :=
  if ¬ cfg.enabled then []
  else
    match List.lookup themeName cfg.schedule with
    | none => []
    | some today =>
        podThemePicks cfg today cachedArticles shownCache themeCache oracle now ++
        podBonusPicks cfg today cachedArticles shownCache themeCache oracle oracle2 now

/-! ### Concrete fixtures used by witnesses and counterexamples

`cityPrefs` maps one print and one broadcast source, giving priority ranks 2
and 4 to otherwise unremarkable articles; `chainPrefs` adds a preferred
local source (rank 0). -/

def cityPrefs : SourcePrefs :=
  { sourceMap := [("Tribune", "print"), ("CBC Radio", "broadcast")], sourceTypes := [] }

/-- Rank-2 article of the spec scenario. -/
def cityA : Article :=
  mkArticle "City Council Approves Budget" "https://a/x" "" "Tribune" 0 none

/-- Rank-4 article of the spec scenario, case-different title, distinct link. -/
def cityB : Article :=
  mkArticle "City council approves budget" "https://b/x" "" "CBC Radio" 0 none

def chainPrefs : SourcePrefs :=
  { sourceMap := [("PaperA", "preferred_local"), ("PaperB", "print"),
                  ("PaperC", "broadcast")],
    sourceTypes := [] }

/-- Rank-0 article; its title is 20 letters `a`. -/
def artX : Article := mkArticle "aaaaaaaaaaaaaaaaaaaa" "https://x/1" "" "PaperA" 0 none

/-- Rank-2 article; similarity 90 with `artX` and with `artZ`. -/
def artY : Article := mkArticle "aaaaaaaaaaaaaaaaaabb" "https://x/2" "" "PaperB" 0 none

/-- Rank-3 (unclassified) article; similarity 90 with `artY` but only 80
with `artX`. -/
def artZ : Article := mkArticle "aaaaaaaaaaaaaaaabbbb" "https://x/3" "" "PaperD" 0 none

/-- Rank-0 article on a disjoint alphabet. -/
def artU : Article := mkArticle "cccccccccccccccccccc" "https://x/4" "" "PaperA" 0 none

/-- Rank-4 article with similarity exactly 85 with `artU`. -/
def artV : Article := mkArticle "cccccccccccccccccddd" "https://x/5" "" "PaperC" 0 none

def chainBatch : List Article := [artX, artY, artZ, artU, artV]

/-- A kept rank-4 article for step-level statements. -/
def stepKept : Article :=
  mkArticle "city council approves budget" "https://k/1" "" "CBC Radio" 0 none

/-- A rank-2 candidate with a near-identical title and a distinct link. -/
def stepCand : Article :=
  mkArticle "City Council Approves Budget" "https://k/2" "" "Tribune" 0 none

/-- A loop state in which `stepKept` is the only kept article. -/
def stepState : DedupState :=
  { seenUrls := [stepKept.urlHash]
    seenTitles := [(stepKept.titleNormalized, stepKept)]
    unique := [stepKept] }

/-- A later batch article sharing `stepKept`'s link (hence fingerprint). -/
def stepSameLink : Article :=
  mkArticle "an entirely different headline" "https://k/1" "" "Other" 0 none

/-- A newly admitted feed item. -/
def feedNewItem : Article :=
  mkArticle "new story" "https://dup/x" "" "S1" 80 (some "news")

/-- A persisted feed item with the same link (hence fingerprint) as
`feedNewItem`. -/
def feedOldItem : Article :=
  mkArticle "old rendering of story" "https://dup/x" "" "S1" 0 none

/-- Three uncached articles forming one scoring batch. -/
def pa1 : Article := mkArticle "story one" "https://p/1" "" "S" 0 none

def pa2 : Article := mkArticle "story two" "https://p/2" "" "S" 0 none

def pa3 : Article := mkArticle "story three" "https://p/3" "" "S" 0 none

/-- An oracle outcome whose first batch response parses but covers only
articles 1 and 2 of a 3-article batch (a partial result). -/
def scorerPartialOracle : Nat → Option (List OracleScore) :=
  fun i => if i = 0 then some [⟨1, 70, some "news"⟩, ⟨2, 60, some "news"⟩] else none

/-- A raw score cache holding one fresh entry for `pa1`'s fingerprint. -/
def hitCacheRaw : List (String × CacheEntry) := [("https://p/1", ⟨42, "news", 995⟩)]

/-- A weekly-cache article already shown in a recent episode. -/
def podA1 : PodArticle :=
  { title := "a1", link := "L1", description := "", pubDate := 0, source := "S",
    sourceUrl := "", score := 80, category := "news", image := none }

/-- A fresh weekly-cache article. -/
def podA2 : PodArticle :=
  { title := "a2", link := "L2", description := "", pubDate := 0, source := "S",
    sourceUrl := "", score := 90, category := "news", image := none }

/-- A podcast schedule with one themed day over the news category. -/
def podCfg : PodcastSchedule :=
  { enabled := true
    schedule := [("monday", { categories := ["news"], label := "Mon" })]
    maxArticles := none
    minScore := none
    includeBonus := none
    bonusMinScore := none
    bonusMaxPerCategory := none
    aiTechPenalty := none }

/-- A raw podcast shown cache holding `podA1`'s link, shown recently. -/
def podShownRaw : List (String × ShownEntry) := [("L1", ⟨"monday", 999000⟩)]

/-- A theme oracle whose every batch call fails. -/
def podFailOracle : Nat → Option (List ThemeScoreData) := fun _ => none

/-! ### Derived notions used by the statements -/

/-- The keep branch of `dedupStep` (both when no fuzzy match is found and
after a supersede): record the fingerprint, the normalized title, and append
to the output. -/
def dedupKeep (st : DedupState) (a : Article) : DedupState :=
  { seenUrls := setAdd a.urlHash st.seenUrls
    seenTitles := dictInsert a.titleNormalized a st.seenTitles
    unique := st.unique ++ [a] }

/-- The pairwise guarantee of the Deduplicator's output for an earlier
output article `x` and a later one `y`: distinct fingerprints, and the
similarity the code computes for the pair (candidate first) is at most the
85 threshold. -/
def DedupPairwise (x y : Article) : Prop :=
  x.urlHash ≠ y.urlHash ∧ similarity y.titleNormalized x.titleNormalized ≤ 85

/-- The loop invariant of `deduplicate_articles`: every kept article's
fingerprint is recorded, the kept list satisfies the pairwise guarantee,
every kept article's normalized title is a key of `seen_titles`, and every
value of `seen_titles` is a kept article. -/
def DedupInv (st : DedupState) : Prop :=
  (∀ k ∈ st.unique, k.urlHash ∈ st.seenUrls) ∧
  st.unique.Pairwise DedupPairwise ∧
  (∀ k ∈ st.unique, ∃ p ∈ st.seenTitles, p.1 = k.titleNormalized) ∧
  (∀ p ∈ st.seenTitles, p.2 ∈ st.unique)

end SuperRss

namespace SuperRss

/-! ## Verification

Sanity checks of the similarity model against known `fuzzywuzzy` values. -/

example : fuzzRatio "this is a test" "this is a test!" = 97 := by decide
example : similarity "this is a test" "this is a test!" = 100 := by decide
example : fuzzRatio "fuzzy wuzzy was a bear" "wuzzy fuzzy was a bear" = 91 := by decide
example : tokenSortRatio "fuzzy wuzzy was a bear" "wuzzy fuzzy was a bear" = 100 := by decide
example : similarity "" "" = 0 := by decide

/-! ### Set and dict helper lemmas -/

theorem mem_setAdd_iff {x y : String} {s : List String} :
    x ∈ setAdd y s ↔ x ∈ s ∨ x = y := by
  unfold setAdd
  split
  · next h =>
    constructor
    · exact Or.inl
    · rintro (hx | rfl)
      · exact hx
      · exact h
  · simp [List.mem_append]

theorem mem_setAdd_of_mem {x y : String} {s : List String} (h : x ∈ s) :
    x ∈ setAdd y s :=
  mem_setAdd_iff.mpr (Or.inl h)

theorem mem_setAdd_self {x : String} {s : List String} : x ∈ setAdd x s :=
  mem_setAdd_iff.mpr (Or.inr rfl)

theorem mem_dictInsert_self {k : String} {v : Article} {d : List (String × Article)} :
    (k, v) ∈ dictInsert k v d := by
  unfold dictInsert
  split
  · next h =>
    rw [List.find?_isSome] at h
    obtain ⟨q, hq, hqk⟩ := h
    refine List.mem_map.mpr ⟨q, hq, ?_⟩
    rw [if_pos (of_decide_eq_true hqk)]
  · exact List.mem_append_right _ (List.mem_singleton.mpr rfl)

theorem mem_dictInsert_elim {k : String} {v : Article} {d : List (String × Article)}
    {p : String × Article} (h : p ∈ dictInsert k v d) : p = (k, v) ∨ p ∈ d := by
  unfold dictInsert at h
  rcases hsplit : (d.find? (fun q => q.1 = k)).isSome with _ | _
  · rw [hsplit] at h
    simp only [Bool.false_eq_true, if_false, List.mem_append, List.mem_singleton] at h
    rcases h with h | h
    · exact Or.inr h
    · exact Or.inl h
  · rw [hsplit] at h
    simp only [if_true] at h
    obtain ⟨q, hq, hmap⟩ := List.mem_map.mp h
    by_cases hk : q.1 = k
    · rw [if_pos hk] at hmap
      exact Or.inl hmap.symm
    · rw [if_neg hk] at hmap
      exact Or.inr (hmap ▸ hq)

theorem dictInsert_keys_of_mem {k : String} {v : Article} {d : List (String × Article)}
    {q : String × Article} (h : q ∈ d) :
    ∃ p ∈ dictInsert k v d, p.1 = q.1 := by
  unfold dictInsert
  split
  · by_cases hk : q.1 = k
    · refine ⟨(k, v), List.mem_map.mpr ⟨q, h, ?_⟩, hk.symm⟩
      rw [if_pos hk]
    · refine ⟨q, List.mem_map.mpr ⟨q, h, ?_⟩, rfl⟩
      rw [if_neg hk]
  · exact ⟨q, List.mem_append_left _ h, rfl⟩

theorem findFirstSimilar_eq_none_iff {c : String} {d : List (String × Article)} :
    findFirstSimilar c d = none ↔ ∀ p ∈ d, similarity c p.1 ≤ 85 := by
  unfold findFirstSimilar
  rw [List.find?_eq_none]
  constructor
  · intro h p hp
    have := h p hp
    simpa [not_lt] using this
  · intro h p hp
    simpa [not_lt] using h p hp

theorem findFirstSimilar_mem {c : String} {d : List (String × Article)}
    {t : String} {k : Article} (h : findFirstSimilar c d = some (t, k)) :
    (t, k) ∈ d :=
  List.mem_of_find?_eq_some h

/-! ### Deduplicator invariants -/

/-- The keep branch of `dedupStep` preserves the loop invariant. -/
theorem dedupInv_keep {st : DedupState} {a : Article} (hInv : DedupInv st)
    (h1 : a.urlHash ∉ st.seenUrls)
    (h2 : findFirstSimilar a.titleNormalized st.seenTitles = none) :
    DedupInv (dedupKeep st a) := by
  obtain ⟨hseen, hpw, hrep, hval⟩ := hInv
  refine ⟨?_, ?_, ?_, ?_⟩ <;> simp only [dedupKeep]
  · intro k hk
    rcases List.mem_append.mp hk with hk | hk
    · exact mem_setAdd_of_mem (hseen k hk)
    · rw [List.mem_singleton.mp hk]; exact mem_setAdd_self
  · rw [List.pairwise_append]
    refine ⟨hpw, List.pairwise_singleton _ _, ?_⟩
    intro x hx y hy
    rw [List.mem_singleton.mp hy]
    constructor
    · intro hEq
      exact h1 (hEq ▸ hseen x hx)
    · obtain ⟨p, hp, hpk⟩ := hrep x hx
      have hle := findFirstSimilar_eq_none_iff.mp h2 p hp
      rw [hpk] at hle
      exact hle
  · intro k hk
    rcases List.mem_append.mp hk with hk | hk
    · obtain ⟨p, hp, hpk⟩ := hrep k hk
      obtain ⟨p2, hp2, hp2k⟩ :=
        @dictInsert_keys_of_mem a.titleNormalized a st.seenTitles p hp
      exact ⟨p2, hp2, hp2k.trans hpk⟩
    · rw [List.mem_singleton.mp hk]
      exact ⟨(a.titleNormalized, a), mem_dictInsert_self, rfl⟩
  · intro p hp
    rcases mem_dictInsert_elim hp with rfl | hp2
    · exact List.mem_append_right _ (List.mem_singleton.mpr rfl)
    · exact List.mem_append_left _ (hval p hp2)

/-- When every value of `seen_titles` has priority at most the candidate's
(as the ascending pre-sort guarantees along the walk), the supersede branch
cannot fire: the step either leaves the state unchanged or keeps the
candidate. -/
theorem dedupStep_dominated {prio : Article → Nat} {st : DedupState} {a : Article}
    (hvals : ∀ p ∈ st.seenTitles, prio p.2 ≤ prio a) :
    dedupStep prio st a = st ∨
    (a.urlHash ∉ st.seenUrls ∧
     findFirstSimilar a.titleNormalized st.seenTitles = none ∧
     dedupStep prio st a = dedupKeep st a) := by
  by_cases hmem : a.urlHash ∈ st.seenUrls
  · left
    unfold dedupStep
    rw [if_pos hmem]
  · cases hfind : findFirstSimilar a.titleNormalized st.seenTitles with
    | none =>
      right
      refine ⟨hmem, rfl, ?_⟩
      unfold dedupStep
      rw [if_neg hmem, hfind]
      rfl
    | some p =>
      obtain ⟨t, k⟩ := p
      left
      have hk : prio k ≤ prio a := hvals (t, k) (findFirstSimilar_mem hfind)
      unfold dedupStep
      rw [if_neg hmem, hfind]
      exact if_neg (not_lt.mpr hk)

/-- Fold invariant of the dedup walk over a priority-sorted batch: the
invariant is preserved and the output extends by a sublist of the walked
articles (in particular no kept article is ever removed). -/
theorem dedupRun_inv (prio : Article → Nat) :
    ∀ (l : List Article) (st : DedupState),
      DedupInv st → (∀ k ∈ st.unique, ∀ x ∈ l, prio k ≤ prio x) →
      l.Pairwise (prioLe prio) →
      DedupInv (l.foldl (dedupStep prio) st) ∧
      ∃ ext, (l.foldl (dedupStep prio) st).unique = st.unique ++ ext ∧ ext.Sublist l
  | [], st, hInv, _, _ => ⟨hInv, [], by simp, List.nil_sublist _⟩
  | a :: rest, st, hInv, hDom, hPw => by
    have hvals : ∀ p ∈ st.seenTitles, prio p.2 ≤ prio a :=
      fun p hp => hDom p.2 (hInv.2.2.2 p hp) a (List.mem_cons_self a rest)
    rw [List.foldl_cons]
    rcases dedupStep_dominated hvals with hstep | ⟨h1, h2, hstep⟩
    · rw [hstep]
      obtain ⟨hInv2, ext, hext, hsub⟩ :=
        dedupRun_inv prio rest st hInv
          (fun k hk x hx => hDom k hk x (List.mem_cons_of_mem a hx)) hPw.of_cons
      exact ⟨hInv2, ext, hext, hsub.cons a⟩
    · rw [hstep]
      have hInv2 : DedupInv (dedupKeep st a) := dedupInv_keep hInv h1 h2
      have hDom2 : ∀ k ∈ (dedupKeep st a).unique, ∀ x ∈ rest, prio k ≤ prio x := by
        intro k hk x hx
        rcases List.mem_append.mp hk with hk | hk
        · exact hDom k hk x (List.mem_cons_of_mem a hx)
        · rw [List.mem_singleton.mp hk]
          exact (List.pairwise_cons.mp hPw).1 x hx
      obtain ⟨hInv3, ext, hext, hsub⟩ :=
        dedupRun_inv prio rest (dedupKeep st a) hInv2 hDom2 (List.pairwise_cons.mp hPw).2
      refine ⟨hInv3, a :: ext, ?_, hsub.cons₂ a⟩
      rw [hext]
      simp [dedupKeep]

/-- The output of `deduplicate_articles` satisfies the pairwise guarantee
and is a sublist of the priority-sorted batch. -/
theorem deduplicateArticles_spec (prefs : SourcePrefs) (lps : Int) (arts : List Article) :
    (deduplicateArticles prefs lps arts).Pairwise DedupPairwise ∧
    (deduplicateArticles prefs lps arts).Sublist
      (arts.insertionSort (prioLe (sourcePriority prefs lps))) := by
  have hs : (arts.insertionSort (prioLe (sourcePriority prefs lps))).Pairwise
      (prioLe (sourcePriority prefs lps)) :=
    List.sorted_insertionSort _ arts
  obtain ⟨hInv, ext, hext, hsub⟩ :=
    dedupRun_inv (sourcePriority prefs lps)
      (arts.insertionSort (prioLe (sourcePriority prefs lps))) ⟨[], [], []⟩
      ⟨by simp, List.Pairwise.nil, by simp, by simp⟩ (by simp) hs
  constructor
  · exact hInv.2.1
  · show (dedupRun _ _).unique.Sublist _
    rw [dedupRun, hext]
    simpa using hsub

/-- The output of `deduplicate_articles` is sorted by priority rank. -/
theorem deduplicateArticles_sorted (prefs : SourcePrefs) (lps : Int) (arts : List Article) :
    (deduplicateArticles prefs lps arts).Pairwise (prioLe (sourcePriority prefs lps)) :=
  List.Pairwise.sublist (deduplicateArticles_spec prefs lps arts).2
    (List.sorted_insertionSort _ arts)

/-- The dedup walk keeps every article of a batch that already satisfies the
pairwise guarantee, relative to an arbitrary state consistent with the
already-kept list `P`. -/
theorem dedupRun_fixed_aux (prio : Article → Nat) :
    ∀ (l P : List Article) (st : DedupState),
      st.unique = P →
      (∀ x, x ∈ st.seenUrls ↔ x ∈ P.map (fun a => a.urlHash)) →
      (∀ p ∈ st.seenTitles, p.1 ∈ P.map (fun a => a.titleNormalized)) →
      (P ++ l).Pairwise DedupPairwise →
      (l.foldl (dedupStep prio) st).unique = P ++ l
  | [], P, st, hu, _, _, _ => by simpa using hu
  | a :: rest, P, st, hu, hurls, hkeys, hPw => by
    have haP : ∀ k ∈ P, DedupPairwise k a :=
      fun k hk => (List.pairwise_append.mp hPw).2.2 k hk a (List.mem_cons_self a rest)
    have hhash : a.urlHash ∉ st.seenUrls := by
      intro hmem
      obtain ⟨k, hkP, hkEq⟩ := List.mem_map.mp ((hurls a.urlHash).mp hmem)
      exact (haP k hkP).1 hkEq
    have hfind : findFirstSimilar a.titleNormalized st.seenTitles = none := by
      rw [findFirstSimilar_eq_none_iff]
      intro p hp
      obtain ⟨k, hkP, hkEq⟩ := List.mem_map.mp (hkeys p hp)
      rw [← hkEq]
      exact (haP k hkP).2
    have hstep : dedupStep prio st a = dedupKeep st a := by
      unfold dedupStep
      rw [if_neg hhash, hfind]
      rfl
    rw [List.foldl_cons, hstep]
    have hres := dedupRun_fixed_aux prio rest (P ++ [a]) (dedupKeep st a)
      (by rw [dedupKeep, hu])
      (by
        intro x
        rw [dedupKeep]
        show x ∈ setAdd a.urlHash st.seenUrls ↔ _
        rw [mem_setAdd_iff, hurls x]
        simp [List.mem_append, eq_comm])
      (by
        intro p hp
        rcases mem_dictInsert_elim hp with rfl | hp2
        · simp
        · have := hkeys p hp2
          simp only [List.map_append, List.mem_append]
          exact Or.inl this)
      (by rwa [List.append_assoc, List.singleton_append])
    rw [hres, List.append_assoc, List.singleton_append]

/-- The dedup walk is the identity on batches satisfying the pairwise
guarantee. -/
theorem dedupRun_fixed (prio : Article → Nat) (l : List Article)
    (hPw : l.Pairwise DedupPairwise) :
    (dedupRun prio l).unique = l := by
  have h := dedupRun_fixed_aux prio l [] ⟨[], [], []⟩ rfl (by simp) (by simp)
    (by simpa using hPw)
  simpa using h

/-- Two members of a pairwise list are related one way or the other, or
equal. -/
theorem pairwise_mem_cases {α : Type} {R : α → α → Prop} :
    ∀ {l : List α}, l.Pairwise R → ∀ {a b : α}, a ∈ l → b ∈ l →
      R a b ∨ R b a ∨ a = b
  | [], _, _, _, ha, _ => absurd ha (List.not_mem_nil _)
  | x :: xs, hPw, a, b, ha, hb => by
    rcases List.mem_cons.mp ha with rfl | ha2
    · rcases List.mem_cons.mp hb with rfl | hb2
      · exact Or.inr (Or.inr rfl)
      · exact Or.inl ((List.pairwise_cons.mp hPw).1 b hb2)
    · rcases List.mem_cons.mp hb with rfl | hb2
      · exact Or.inr (Or.inl ((List.pairwise_cons.mp hPw).1 a ha2))
      · exact pairwise_mem_cases (List.pairwise_cons.mp hPw).2 ha2 hb2

/-- An exact fingerprint match is discarded: the step leaves the state
unchanged. -/
theorem dedupStep_of_seen {prio : Article → Nat} {st : DedupState} {a : Article}
    (h : a.urlHash ∈ st.seenUrls) : dedupStep prio st a = st := by
  unfold dedupStep
  rw [if_pos h]

/-! ### Claims about the Deduplicator -/

/-- C8: for every input batch and source-preference configuration, every
pair of articles in the Deduplicator's output has distinct fingerprints and
normalized-title similarity (the maximum of character-ratio and
reordered-token similarity, compared candidate-first as the code does) at
most the 85 threshold. -/
theorem dedup_output_unique_and_dissimilar (prefs : SourcePrefs) (lps : Int)
    (arts : List Article) :
    (deduplicateArticles prefs lps arts).Pairwise DedupPairwise :=
  (deduplicateArticles_spec prefs lps arts).1

/-- C9: the Deduplicator is idempotent — applying it to its own output
returns that output unchanged, same articles in the same order. -/
theorem dedup_idempotent (prefs : SourcePrefs) (lps : Int) (arts : List Article) :
    deduplicateArticles prefs lps (deduplicateArticles prefs lps arts) =
      deduplicateArticles prefs lps arts := by
  have hpw := (deduplicateArticles_spec prefs lps arts).1
  have hsort := deduplicateArticles_sorted prefs lps arts
  show (dedupRun _ _).unique = _
  rw [List.Sorted.insertionSort_eq hsort]
  exact dedupRun_fixed _ _ hpw

/-- C1 (amended): for every input batch and every two articles whose
normalized-title similarity is strictly above the 85 threshold and whose
priority ranks differ, the Deduplicator's output never contains both. -/
theorem dedup_priority_tiebreak (prefs : SourcePrefs) (lps : Int)
    (arts : List Article) (a b : Article)
    (hsim : 85 < similarity b.titleNormalized a.titleNormalized)
    (hprio : sourcePriority prefs lps a < sourcePriority prefs lps b) :
    ¬ (a ∈ deduplicateArticles prefs lps arts ∧
       b ∈ deduplicateArticles prefs lps arts) := by
  rintro ⟨ha, hb⟩
  have hcomb :=
    ((deduplicateArticles_spec prefs lps arts).1).and
      (deduplicateArticles_sorted prefs lps arts)
  rcases pairwise_mem_cases hcomb ha hb with h | h | hEq
  · exact absurd h.1.2 (not_le.mpr hsim)
  · exact absurd h.2 (not_le.mpr hprio)
  · rw [hEq] at hprio
    exact lt_irrefl _ hprio

/-- C1 witness: the spec scenario — case-different but otherwise identical
titles, distinct links, priority ranks 2 and 4 — keeps only the rank-2
article, and the amended theorem applies to it. -/
theorem dedup_priority_tiebreak_witness :
    deduplicateArticles cityPrefs 100 [cityA, cityB] = [cityA] ∧
    ¬ (cityA ∈ deduplicateArticles cityPrefs 100 [cityA, cityB] ∧
       cityB ∈ deduplicateArticles cityPrefs 100 [cityA, cityB]) :=
  ⟨by decide,
   dedup_priority_tiebreak cityPrefs 100 [cityA, cityB] cityA cityB
     (by decide) (by decide)⟩

/-- C1 counterexample: in the batch `[artX, artY, artZ, artU, artV]` the
pair `(artY, artZ)` has similarity 90 ≥ 85 and distinct ranks 2 and 3, yet
the output contains the lower-priority `artZ` and not the higher-priority
`artY` (which was itself superseded by the rank-0 `artX`); and the pair
`(artU, artV)` has similarity exactly 85 ≥ 85 and distinct ranks 0 and 4,
yet both survive, because the code's threshold test is strict. -/
theorem dedup_priority_tiebreak_counterexample :
    85 ≤ similarity artZ.titleNormalized artY.titleNormalized ∧
    sourcePriority chainPrefs 100 artY ≠ sourcePriority chainPrefs 100 artZ ∧
    artY ∉ deduplicateArticles chainPrefs 100 chainBatch ∧
    artZ ∈ deduplicateArticles chainPrefs 100 chainBatch ∧
    85 ≤ similarity artV.titleNormalized artU.titleNormalized ∧
    sourcePriority chainPrefs 100 artU ≠ sourcePriority chainPrefs 100 artV ∧
    artU ∈ deduplicateArticles chainPrefs 100 chainBatch ∧
    artV ∈ deduplicateArticles chainPrefs 100 chainBatch := by
  decide

/-- C2 (amended): in the fuzzy-match step, when the candidate is no exact
duplicate and the first kept article `k` similar to it is found: if the
candidate's priority rank is strictly lower than `k`'s, then `k` is removed
from the kept list and the candidate is kept in its place; otherwise the
candidate is discarded and the state is unchanged.  (In the full
Deduplicator the batch is pre-sorted by rank, so the remove-and-replace
branch never fires there.) -/
theorem dedup_step_fuzzy_resolution (prio : Article → Nat) (st : DedupState)
    (a : Article) (t : String) (k : Article)
    (h1 : a.urlHash ∉ st.seenUrls)
    (h2 : findFirstSimilar a.titleNormalized st.seenTitles = some (t, k))
    (h3 : st.unique.count k = 1) (h4 : k ≠ a) :
    (prio a < prio k →
      a ∈ (dedupStep prio st a).unique ∧ k ∉ (dedupStep prio st a).unique) ∧
    (prio k ≤ prio a → dedupStep prio st a = st) := by
  constructor
  · intro hlt
    have hstep : dedupStep prio st a =
        { seenUrls := setAdd a.urlHash st.seenUrls
          seenTitles := dictInsert a.titleNormalized a (dictPop t st.seenTitles)
          unique := (st.unique.erase k) ++ [a] } := by
      unfold dedupStep
      rw [if_neg h1, h2]
      exact if_pos hlt
    rw [hstep]
    constructor
    · exact List.mem_append_right _ (List.mem_singleton.mpr rfl)
    · intro hk
      rcases List.mem_append.mp hk with hk | hk
      · have hc : st.unique.count k ≤ 1 := le_of_eq h3
        have := List.count_erase_self k st.unique
        have hzero : (st.unique.erase k).count k = 0 := by omega
        exact (List.count_eq_zero.mp hzero) hk
      · exact h4 (List.mem_singleton.mp hk)
  · intro hge
    unfold dedupStep
    rw [if_neg h1, h2]
    exact if_neg (not_lt.mpr hge)

/-- C2 witness: with kept rank-4 `stepKept` and rank-2 candidate `stepCand`
(similarity 100), the supersede branch keeps the candidate and removes the
kept article. -/
theorem dedup_step_fuzzy_resolution_witness :
    stepCand ∈ (dedupStep (sourcePriority cityPrefs 100) stepState stepCand).unique ∧
    stepKept ∉ (dedupStep (sourcePriority cityPrefs 100) stepState stepCand).unique :=
  (dedup_step_fuzzy_resolution (sourcePriority cityPrefs 100) stepState stepCand
    stepKept.titleNormalized stepKept (by decide) (by decide) (by decide)
    (by decide)).1 (by decide)

/-- C2 counterexample: the claim as stated says a candidate with a strictly
lower priority rank than the matching kept article is discarded; but with
rank-2 candidate `stepCand` against kept rank-4 `stepKept` (similarity 100,
no exact-url match) the step keeps the candidate and removes the kept
article instead — the output list is exactly `[stepCand]`. -/
theorem dedup_step_fuzzy_resolution_counterexample :
    sourcePriority cityPrefs 100 stepCand < sourcePriority cityPrefs 100 stepKept ∧
    85 < similarity stepCand.titleNormalized stepKept.titleNormalized ∧
    (dedupStep (sourcePriority cityPrefs 100) stepState stepCand).unique = [stepCand] := by
  decide

/-- C10: when a kept article `k` is superseded by a higher-priority
near-duplicate `a`, `k`'s fingerprint stays in the seen-fingerprint set, so
a subsequent article with `k`'s link is discarded as an exact duplicate
(the step leaves the state unchanged) even though no article with that
fingerprint remains in the output. -/
theorem dedup_superseded_fingerprint_retained (prio : Article → Nat)
    (st : DedupState) (a a2 : Article) (t : String) (k : Article)
    (h1 : a.urlHash ∉ st.seenUrls)
    (h2 : findFirstSimilar a.titleNormalized st.seenTitles = some (t, k))
    (h3 : prio a < prio k)
    (h4 : k.urlHash ∈ st.seenUrls)
    (h5 : ∀ x ∈ st.unique, x.urlHash = k.urlHash → x = k)
    (h6 : st.unique.count k ≤ 1)
    (h7 : a.urlHash ≠ k.urlHash)
    (h8 : a2.urlHash = k.urlHash) :
    k.urlHash ∈ (dedupStep prio st a).seenUrls ∧
    dedupStep prio (dedupStep prio st a) a2 = dedupStep prio st a ∧
    ∀ x ∈ (dedupStep prio st a).unique, x.urlHash ≠ k.urlHash := by
  have hstep : dedupStep prio st a =
      { seenUrls := setAdd a.urlHash st.seenUrls
        seenTitles := dictInsert a.titleNormalized a (dictPop t st.seenTitles)
        unique := (st.unique.erase k) ++ [a] } := by
    unfold dedupStep
    rw [if_neg h1, h2]
    exact if_pos h3
  have hmem : k.urlHash ∈ (dedupStep prio st a).seenUrls := by
    rw [hstep]
    exact mem_setAdd_of_mem h4
  refine ⟨hmem, ?_, ?_⟩
  · have hmem2 : a2.urlHash ∈ (dedupStep prio st a).seenUrls := h8 ▸ hmem
    exact dedupStep_of_seen hmem2
  · intro x hx
    rw [hstep] at hx
    rcases List.mem_append.mp hx with hx | hx
    · intro hEq
      have hxk : x = k := h5 x (List.mem_of_mem_erase hx) hEq
      rw [hxk] at hx
      have := List.count_erase_self k st.unique
      have hzero : (st.unique.erase k).count k = 0 := by omega
      exact (List.count_eq_zero.mp hzero) hx
    · rw [List.mem_singleton.mp hx]
      exact h7

/-- C10 witness: with kept rank-4 `stepKept`, rank-2 candidate `stepCand`
superseding it, and a later article `stepSameLink` sharing `stepKept`'s
link, the fingerprint survives, the later article is discarded, and no
output article carries that fingerprint. -/
theorem dedup_superseded_fingerprint_retained_witness :
    stepKept.urlHash ∈
      (dedupStep (sourcePriority cityPrefs 100) stepState stepCand).seenUrls ∧
    dedupStep (sourcePriority cityPrefs 100)
        (dedupStep (sourcePriority cityPrefs 100) stepState stepCand) stepSameLink =
      dedupStep (sourcePriority cityPrefs 100) stepState stepCand ∧
    ∀ x ∈ (dedupStep (sourcePriority cityPrefs 100) stepState stepCand).unique,
      x.urlHash ≠ stepKept.urlHash :=
  dedup_superseded_fingerprint_retained (sourcePriority cityPrefs 100) stepState
    stepCand stepSameLink stepKept.titleNormalized stepKept
    (by decide) (by decide) (by decide) (by decide) (by decide) (by decide)
    (by decide) (by decide)

/-! ### Diversity Limiter -/

/-- The keep case of the greedy admission step. -/
theorem divStep_keep {cap : String → Int} {acc : List Article × (String → Nat)}
    {a : Article} (h : (acc.2 a.source : Int) < cap a.source) :
    divStep cap acc a =
      (acc.1 ++ [a], fun s => if s = a.source then acc.2 s + 1 else acc.2 s) := by
  unfold divStep
  rw [if_pos h]

/-- The drop case of the greedy admission step. -/
theorem divStep_drop {cap : String → Int} {acc : List Article × (String → Nat)}
    {a : Article} (h : ¬ (acc.2 a.source : Int) < cap a.source) :
    divStep cap acc a = acc := by
  unfold divStep
  rw [if_neg h]

/-- Fold invariant of the greedy admission loop: for every source `s`, the
kept articles from `s` are exactly the first `cap s` articles from `s` of
the processed list. -/
theorem divFold_aux (cap : String → Int) :
    ∀ (l P : List Article) (acc : List Article × (String → Nat)),
      (∀ s, acc.1.filter (fun x => x.source = s) =
          (P.filter (fun x => x.source = s)).take (cap s).toNat) →
      (∀ s, acc.2 s = (acc.1.filter (fun x => x.source = s)).length) →
      ∀ s, (l.foldl (divStep cap) acc).1.filter (fun x => x.source = s) =
          ((P ++ l).filter (fun x => x.source = s)).take (cap s).toNat
  | [], P, acc, hkept, _ => by simpa using hkept
  | a :: rest, P, acc, hkept, hcounts => by
    rw [List.foldl_cons]
    by_cases hlt : (acc.2 a.source : Int) < cap a.source
    · rw [divStep_keep hlt]
      have hm : (P.filter (fun x => x.source = a.source)).length <
          (cap a.source).toNat := by
        have h2 := congrArg List.length (hkept a.source)
        rw [List.length_take] at h2
        have h3 := hcounts a.source
        omega
      have hkept2 : ∀ s, (acc.1 ++ [a]).filter (fun x => x.source = s) =
          ((P ++ [a]).filter (fun x => x.source = s)).take (cap s).toNat := by
        intro s
        by_cases hs : a.source = s
        · subst hs
          rw [List.filter_append, List.filter_append, hkept a.source,
              List.take_of_length_le (le_of_lt hm),
              List.take_of_length_le (by
                rw [List.length_append]
                have hone : (List.filter (fun x => decide (x.source = a.source)) [a]).length ≤ 1 := by
                  simp [List.filter_singleton]
                omega)]
        · have ha : (List.filter (fun x => decide (x.source = s)) [a]) = [] := by
            simp [List.filter_singleton, hs]
          rw [List.filter_append, List.filter_append, ha, List.append_nil,
            List.append_nil, hkept s]
      have hcounts2 : ∀ s, (if s = a.source then acc.2 s + 1 else acc.2 s) =
          ((acc.1 ++ [a]).filter (fun x => x.source = s)).length := by
        intro s
        by_cases hs : s = a.source
        · subst hs
          rw [if_pos rfl, List.filter_append, List.length_append, hcounts a.source]
          simp [List.filter_singleton]
        · rw [if_neg hs, List.filter_append, List.length_append, hcounts s]
          have hs2 : ¬ a.source = s := fun h => hs h.symm
          have ha : (List.filter (fun x => decide (x.source = s)) [a]) = [] := by
            simp [List.filter_singleton, hs2]
          rw [ha]
          simp
      intro s
      have hres := divFold_aux cap rest (P ++ [a]) (acc.1 ++ [a],
        fun s => if s = a.source then acc.2 s + 1 else acc.2 s) hkept2 hcounts2 s
      rwa [List.append_assoc, List.singleton_append] at hres
    · rw [divStep_drop hlt]
      have hkept2 : ∀ s, acc.1.filter (fun x => x.source = s) =
          ((P ++ [a]).filter (fun x => x.source = s)).take (cap s).toNat := by
        intro s
        by_cases hs : a.source = s
        · subst hs
          have h2 := congrArg List.length (hkept a.source)
          rw [List.length_take] at h2
          have h3 := hcounts a.source
          have hn : (cap a.source).toNat ≤
              (P.filter (fun x => x.source = a.source)).length := by omega
          rw [List.filter_append, List.take_append_of_le_length hn, hkept a.source]
        · have ha : (List.filter (fun x => decide (x.source = s)) [a]) = [] := by
            simp [List.filter_singleton, hs]
          rw [List.filter_append, ha, List.append_nil, hkept s]
      intro s
      have hres := divFold_aux cap rest (P ++ [a]) acc hkept2 hcounts s
      rwa [List.append_assoc, List.singleton_append] at hres

/-- C5: for every configuration, input list, category and source `S`, the
Diversity Limiter's output restricted to `S` is exactly the first
`cap(S, C)` articles from `S` of the score-descending stably sorted input
(its highest-scoring ones under the greedy left-to-right pass), and in
particular the output contains at most `cap(S, C)` articles from `S`. -/
theorem diversity_limit_spec (prefs : SourcePrefs) (limits : Limits)
    (arts : List Article) (category S : String) :
    (applyDiversityLimits prefs limits arts category).filter
        (fun x => x.source = S) =
      ((arts.insertionSort scoreDescLe).filter (fun x => x.source = S)).take
        (capForSource prefs
          (if category = "local" then limits.maxPerLocal else limits.maxPerSource)
          S).toNat ∧
    ((applyDiversityLimits prefs limits arts category).filter
        (fun x => x.source = S)).length ≤
      (capForSource prefs
        (if category = "local" then limits.maxPerLocal else limits.maxPerSource)
        S).toNat := by
  unfold applyDiversityLimits
  have h := divFold_aux
    (capForSource prefs
      (if category = "local" then limits.maxPerLocal else limits.maxPerSource))
    (arts.insertionSort scoreDescLe) [] ([], fun _ => 0)
    (by intro s; simp) (by intro s; simp) S
  simp only [List.nil_append] at h
  refine ⟨h, ?_⟩
  rw [h]
  exact List.length_take_le _ _

/-- Scenario check: ten articles from one source with cap 3 keep exactly
the three highest-scoring ones. -/
example :
    applyDiversityLimits { sourceMap := [], sourceTypes := [] }
      { maxPerSource := 3, maxPerLocal := 6 }
      [mkArticle "1" "1" "" "X" 10 none, mkArticle "2" "2" "" "X" 80 none,
       mkArticle "3" "3" "" "X" 30 none, mkArticle "4" "4" "" "X" 90 none,
       mkArticle "5" "5" "" "X" 20 none, mkArticle "6" "6" "" "X" 70 none,
       mkArticle "7" "7" "" "X" 40 none, mkArticle "8" "8" "" "X" 60 none,
       mkArticle "9" "9" "" "X" 50 none, mkArticle "10" "10" "" "X" 0 none]
      "news" =
    [mkArticle "4" "4" "" "X" 90 none, mkArticle "2" "2" "" "X" 80 none,
     mkArticle "6" "6" "" "X" 70 none] := by
  decide

/-! ### Feed merge -/

/-- C6 (amended): the merge performs no fingerprint deduplication — when
everything fits under the size cap, every fingerprint occurs in the merged
output exactly as many times as in the new items plus the retained persisted
items together; on a fingerprint conflict both items are kept. -/
theorem feed_merge_no_fingerprint_dedup (maxFeedSize : Nat)
    (newItems old : List Article)
    (h : (newItems ++ old).length ≤ maxFeedSize) (s : String) :
    (mergeFeed maxFeedSize newItems old).countP (fun a => a.urlHash == s) =
      newItems.countP (fun a => a.urlHash == s) +
        old.countP (fun a => a.urlHash == s) := by
  unfold mergeFeed
  rw [List.take_of_length_le (by rw [List.length_insertionSort]; exact h),
    (List.perm_insertionSort pubDateDescLe (newItems ++ old)).countP_eq,
    List.countP_append]

/-- C6 witness: a new item and a persisted item with the same link both
survive the merge — the shared fingerprint occurs twice. -/
theorem feed_merge_no_fingerprint_dedup_witness :
    (mergeFeed 20 [feedNewItem] [feedOldItem]).countP
      (fun a => a.urlHash == "https://dup/x") = 2 := by
  rw [feed_merge_no_fingerprint_dedup 20 [feedNewItem] [feedOldItem]
    (by decide) "https://dup/x"]
  decide

/-- C6 counterexample: the claim says the merged output contains at most one
item per fingerprint; but with one new and one persisted item sharing the
link `https://dup/x`, the merged output contains two items with that
fingerprint. -/
theorem feed_merge_counterexample :
    ¬ ((mergeFeed 20 [feedNewItem] [feedOldItem]).countP
        (fun a => a.urlHash == "https://dup/x") ≤ 1) := by
  decide

/-! ### Relevance Scorer -/

/-- Replacing the value stored under key `k` does not change lookups at
other keys. -/
theorem lookup_map_replace {β : Type} (k x : String) (v : β) (hx : x ≠ k) :
    ∀ d : List (String × β),
      List.lookup x (d.map (fun p => if p.1 = k then (k, v) else p)) =
        List.lookup x d
  | [] => rfl
  | (k1, v1) :: rest => by
    by_cases h1 : k1 = k
    · subst h1
      have hbeq : (x == k1) = false := by simpa using hx
      rw [List.map_cons, if_pos (show (k1, v1).1 = k1 from rfl)]
      simp only [List.lookup_cons, hbeq]
      exact lookup_map_replace k1 x v hx rest
    · rw [List.map_cons, if_neg (show ¬ (k1, v1).1 = k from h1)]
      cases hbeq : x == k1
      · simp only [List.lookup_cons, hbeq]
        exact lookup_map_replace k x v hx rest
      · simp [List.lookup_cons, hbeq]

/-- Python dict assignment at key `k` does not change lookups at other keys. -/
theorem lookup_upsert_ne {β : Type} (k : String) (v : β) (d : List (String × β))
    (x : String) (hx : x ≠ k) :
    List.lookup x (upsert k v d) = List.lookup x d := by
  unfold upsert
  split
  · exact lookup_map_replace k x v hx d
  · rw [List.lookup_append]
    cases hl : List.lookup x d
    · have hbeq : (x == k) = false := by simpa using hx
      simp [List.lookup_cons, hbeq]
    · simp

/-- Every article of every batch slice comes from the sliced list. -/
theorem chunksOf_go_subset {α : Type} (n : Nat) :
    ∀ (fuel : Nat) (l b : List α), b ∈ chunksOf.go n fuel l → ∀ x ∈ b, x ∈ l
  | _, [], b, hb => by simp [chunksOf.go] at hb
  | 0, _ :: _, b, hb => by simp [chunksOf.go] at hb
  | fuel + 1, y :: ys, b, hb => by
    rw [chunksOf.go] at hb
    rcases List.mem_cons.mp hb with rfl | hb2
    · intro x hx
      exact List.take_subset n _ hx
    · intro x hx
      exact List.drop_subset _ _ (chunksOf_go_subset n fuel _ b hb2 x hx)

theorem chunksOf_subset {α : Type} (n : Nat) (l : List α) :
    ∀ b ∈ chunksOf n l, ∀ x ∈ b, x ∈ l :=
  fun b hb => chunksOf_go_subset n l.length l b hb

/-- One response record only appends to the scored list. -/
theorem oracleEntryStep_monotone (categories : List String)
    (rules : List (String × CategoryRule)) (now : Int) (batch : List Article)
    (ac : List Article × List (String × CacheEntry)) (sd : OracleScore) :
    ∃ ext, (oracleEntryStep categories rules now batch ac sd).1 = ac.1 ++ ext := by
  unfold oracleEntryStep
  split
  · exact ⟨[], (List.append_nil _).symm⟩
  · split
    · exact ⟨[], (List.append_nil _).symm⟩
    · exact ⟨_, rfl⟩

theorem scoresFold_monotone (categories : List String)
    (rules : List (String × CategoryRule)) (now : Int) (batch : List Article) :
    ∀ (scores : List OracleScore) (ac : List Article × List (String × CacheEntry)),
      ∃ ext, (scores.foldl (oracleEntryStep categories rules now batch) ac).1 =
        ac.1 ++ ext
  | [], ac => ⟨[], (List.append_nil _).symm⟩
  | sd :: rest, ac => by
    rw [List.foldl_cons]
    obtain ⟨e1, h1⟩ := oracleEntryStep_monotone categories rules now batch ac sd
    obtain ⟨e2, h2⟩ := scoresFold_monotone categories rules now batch rest
      (oracleEntryStep categories rules now batch ac sd)
    exact ⟨e1 ++ e2, by rw [h2, h1, List.append_assoc]⟩

theorem applyOracleScores_monotone (categories : List String)
    (rules : List (String × CategoryRule)) (now : Int) (batch : List Article)
    (resp : Option (List OracleScore))
    (acc : List Article × List (String × CacheEntry)) :
    ∃ ext, (applyOracleScores categories rules now batch resp acc).1 = acc.1 ++ ext := by
  cases resp
  · exact ⟨_, rfl⟩
  · exact scoresFold_monotone categories rules now batch _ acc

/-- The batch loop only appends to the scored list: cache hits stay in the
output. -/
theorem runBatches_monotone (categories : List String)
    (rules : List (String × CategoryRule)) (oracle : Nat → Option (List OracleScore))
    (now : Int) :
    ∀ (bs : List (List Article)) (i : Nat)
      (acc : List Article × List (String × CacheEntry)),
      ∃ ext, (runBatches categories rules oracle now i bs acc).1 = acc.1 ++ ext
  | [], _, acc => ⟨[], (List.append_nil _).symm⟩
  | b :: bs, i, acc => by
    have hstep : runBatches categories rules oracle now i (b :: bs) acc =
        runBatches categories rules oracle now (i + 1) bs
          (applyOracleScores categories rules now b (oracle i) acc) := rfl
    rw [hstep]
    obtain ⟨e1, h1⟩ := applyOracleScores_monotone categories rules now b (oracle i) acc
    obtain ⟨e2, h2⟩ := runBatches_monotone categories rules oracle now bs (i + 1)
      (applyOracleScores categories rules now b (oracle i) acc)
    exact ⟨e1 ++ e2, by rw [h2, h1, List.append_assoc]⟩

/-- The cache write of one response record is keyed by a batch article's
fingerprint, so lookups at other fingerprints are unchanged. -/
theorem oracleEntryStep_preserves_lookup (categories : List String)
    (rules : List (String × CategoryRule)) (now : Int) (batch : List Article)
    (ac : List Article × List (String × CacheEntry)) (sd : OracleScore) (x : String)
    (hbatch : ∀ b ∈ batch, b.urlHash ≠ x) :
    List.lookup x (oracleEntryStep categories rules now batch ac sd).2 =
      List.lookup x ac.2 := by
  unfold oracleEntryStep
  split
  · rfl
  · split
    · rfl
    · next a ha =>
      exact lookup_upsert_ne a.urlHash _ ac.2 x
        (Ne.symm (hbatch a (List.getElem?_mem ha)))

theorem scoresFold_preserves_lookup (categories : List String)
    (rules : List (String × CategoryRule)) (now : Int) (batch : List Article)
    (x : String) (hbatch : ∀ b ∈ batch, b.urlHash ≠ x) :
    ∀ (scores : List OracleScore) (ac : List Article × List (String × CacheEntry)),
      List.lookup x (scores.foldl (oracleEntryStep categories rules now batch) ac).2 =
        List.lookup x ac.2
  | [], _ => rfl
  | sd :: rest, ac => by
    rw [List.foldl_cons,
      scoresFold_preserves_lookup categories rules now batch x hbatch rest _]
    exact oracleEntryStep_preserves_lookup categories rules now batch ac sd x hbatch

theorem applyOracleScores_preserves_lookup (categories : List String)
    (rules : List (String × CategoryRule)) (now : Int) (batch : List Article)
    (resp : Option (List OracleScore))
    (acc : List Article × List (String × CacheEntry)) (x : String)
    (hbatch : ∀ b ∈ batch, b.urlHash ≠ x) :
    List.lookup x (applyOracleScores categories rules now batch resp acc).2 =
      List.lookup x acc.2 := by
  cases resp
  · rfl
  · exact scoresFold_preserves_lookup categories rules now batch x hbatch _ acc

theorem runBatches_preserves_lookup (categories : List String)
    (rules : List (String × CategoryRule)) (oracle : Nat → Option (List OracleScore))
    (now : Int) (x : String) :
    ∀ (bs : List (List Article)) (i : Nat)
      (acc : List Article × List (String × CacheEntry)),
      (∀ b ∈ bs, ∀ art ∈ b, art.urlHash ≠ x) →
      List.lookup x (runBatches categories rules oracle now i bs acc).2 =
        List.lookup x acc.2
  | [], _, _, _ => rfl
  | b :: bs, i, acc, hbs => by
    have hstep : runBatches categories rules oracle now i (b :: bs) acc =
        runBatches categories rules oracle now (i + 1) bs
          (applyOracleScores categories rules now b (oracle i) acc) := rfl
    rw [hstep, runBatches_preserves_lookup categories rules oracle now x bs (i + 1) _
      (fun b2 hb2 => hbs b2 (List.mem_cons_of_mem b hb2))]
    exact applyOracleScores_preserves_lookup categories rules now b (oracle i) acc x
      (hbs b (List.mem_cons_self b bs))

/-- Core cache-hit property: a cached article appears in the scorer's output
with exactly the cached score and category, and belongs to no oracle batch. -/
theorem scorer_hit_core (categories : List String)
    (rules : List (String × CategoryRule)) (oracle : Nat → Option (List OracleScore))
    (cache : List (String × CacheEntry)) (now : Int) (articles : List Article)
    (a : Article) (e : CacheEntry)
    (ha : a ∈ articles) (hc : List.lookup a.urlHash cache = some e) :
    ({ a with score := e.score, category := some e.category } ∈
      (scoreArticlesWithClaude categories rules oracle cache now articles).1) ∧
    (∀ b ∈ oracleBatches cache articles, a ∉ b) := by
  constructor
  · have hhit : { a with score := e.score, category := some e.category } ∈
        scoredCacheHits cache articles := by
      unfold scoredCacheHits
      exact List.mem_filterMap.mpr ⟨a, ha, by rw [hc]; rfl⟩
    unfold scoreArticlesWithClaude
    obtain ⟨ext, hext⟩ := runBatches_monotone categories rules oracle now
      (oracleBatches cache articles) 0 (scoredCacheHits cache articles, cache)
    rw [hext]
    exact List.mem_append_left _ hhit
  · intro b hb hab
    have hmem := chunksOf_subset 10 _ b hb a hab
    have hf := (List.mem_filter.mp hmem).2
    rw [hc] at hf
    simp at hf

/-- The scorer never overwrites an existing cache entry: every cache write
is keyed by an uncached article's fingerprint. -/
theorem scorer_preserves_cached (categories : List String)
    (rules : List (String × CategoryRule)) (oracle : Nat → Option (List OracleScore))
    (cache : List (String × CacheEntry)) (now : Int) (articles : List Article)
    (x : String) (e : CacheEntry) (hx : List.lookup x cache = some e) :
    List.lookup x
      (scoreArticlesWithClaude categories rules oracle cache now articles).2 =
      some e := by
  unfold scoreArticlesWithClaude
  rw [runBatches_preserves_lookup categories rules oracle now x
    (oracleBatches cache articles) 0 _ ?hbs]
  · exact hx
  case hbs =>
    intro b hb art hart hEq
    have hmem := chunksOf_subset 10 _ b hb art hart
    have hf := (List.mem_filter.mp hmem).2
    rw [hEq, hx] at hf
    simp at hf

/-- A lookup hit surviving the validity filter is still a hit. -/
theorem lookup_filter_of_lookup {β : Type} (p : String × β → Bool) :
    ∀ (l : List (String × β)) (x : String) (v : β),
      List.lookup x l = some v → p (x, v) = true →
      List.lookup x (l.filter p) = some v
  | [], x, v, h, _ => by simp at h
  | (k1, v1) :: rest, x, v, h, hp => by
    cases hbeq : x == k1
    · simp only [List.lookup_cons, hbeq] at h
      rw [List.filter_cons]
      split
      · rw [List.lookup_cons, hbeq]
        exact lookup_filter_of_lookup p rest x v h hp
      · exact lookup_filter_of_lookup p rest x v h hp
    · simp only [List.lookup_cons, hbeq, Option.some.injEq] at h
      have hxk : x = k1 := by simpa using hbeq
      subst hxk
      rw [← h] at hp
      rw [List.filter_cons, if_pos hp, List.lookup_cons_self, h]

theorem enforceOne_nil (a : Article) : enforceOne [] a = a := by
  unfold enforceOne
  simp

/-- `enforce_local_priority` is the per-article override mapped over the
list (the empty-signal early return included). -/
theorem enforceLocalPriority_eq_map (signals : List String) (articles : List Article) :
    enforceLocalPriority signals articles =
      articles.map (enforceOne (signals.map pyLower)) := by
  unfold enforceLocalPriority
  split
  · next h =>
    rw [h, List.map_congr_left (fun a _ => enforceOne_nil a), List.map_id']
  · rfl

/-- C3: for every article whose fingerprint has a valid (unexpired) entry in
the loaded Score Cache, the Scorer annotates it with exactly the cached
score and category; the article is in none of the oracle batches; a second
run at a later time still inside the TTL window (loading the cache the first
run persisted) reproduces the same score and category, again without an
oracle call; and the deterministic local-priority override and
source-preference adjustment are still applied to it afterward by the
pipeline. -/
theorem scorer_cache_hit (categories : List String)
    (rules : List (String × CategoryRule)) (prefs : SourcePrefs)
    (localSignals : List String)
    (oracle oracle2 : Nat → Option (List OracleScore))
    (raw : List (String × CacheEntry)) (now ttl now2 : Int)
    (articles articles2 : List Article) (a : Article) (e : CacheEntry)
    (ha : a ∈ articles)
    (hc : List.lookup a.urlHash (loadScoredCache raw now ttl) = some e)
    (ha2 : a ∈ articles2) (hvalid2 : now2 - ttl < e.timestamp) :
    ({ a with score := e.score, category := some e.category } ∈
      (scoreArticlesWithClaude categories rules oracle
        (loadScoredCache raw now ttl) now articles).1) ∧
    (∀ b ∈ oracleBatches (loadScoredCache raw now ttl) articles, a ∉ b) ∧
    ({ a with score := e.score, category := some e.category } ∈
      (scoreArticlesWithClaude categories rules oracle2
        (loadScoredCache
          (scoreArticlesWithClaude categories rules oracle
            (loadScoredCache raw now ttl) now articles).2 now2 ttl)
        now2 articles2).1) ∧
    (∀ b ∈ oracleBatches
        (loadScoredCache
          (scoreArticlesWithClaude categories rules oracle
            (loadScoredCache raw now ttl) now articles).2 now2 ttl)
        articles2, a ∉ b) ∧
    (adjustOne prefs (enforceOne (localSignals.map pyLower)
        { a with score := e.score, category := some e.category }) ∈
      applySourcePreferences prefs (enforceLocalPriority localSignals
        (scoreArticlesWithClaude categories rules oracle
          (loadScoredCache raw now ttl) now articles).1)) := by
  have hcore := scorer_hit_core categories rules oracle
    (loadScoredCache raw now ttl) now articles a e ha hc
  have hpres := scorer_preserves_cached categories rules oracle
    (loadScoredCache raw now ttl) now articles a.urlHash e hc
  have hc2 : List.lookup a.urlHash
      (loadScoredCache
        (scoreArticlesWithClaude categories rules oracle
          (loadScoredCache raw now ttl) now articles).2 now2 ttl) = some e := by
    unfold loadScoredCache
    exact lookup_filter_of_lookup _ _ _ _ hpres (decide_eq_true hvalid2)
  have hcore2 := scorer_hit_core categories rules oracle2 _ now2 articles2 a e ha2 hc2
  refine ⟨hcore.1, hcore.2, hcore2.1, hcore2.2, ?_⟩
  rw [enforceLocalPriority_eq_map]
  unfold applySourcePreferences
  exact List.mem_map_of_mem _ (List.mem_map_of_mem _ hcore.1)

/-- C3 witness: with a fresh cache entry of score 42 for `pa1` and a failing
oracle, the Scorer outputs `pa1` with score 42 and category news and sends
no batch containing `pa1`. -/
theorem scorer_cache_hit_witness :
    ({ pa1 with score := 42, category := some "news" } ∈
      (scoreArticlesWithClaude ["news"] [] (fun _ => none)
        (loadScoredCache hitCacheRaw 1000 21600) 1000 [pa1, pa2]).1) ∧
    (∀ b ∈ oracleBatches (loadScoredCache hitCacheRaw 1000 21600) [pa1, pa2],
      pa1 ∉ b) :=
  ⟨(scorer_cache_hit ["news"] [] cityPrefs [] (fun _ => none) (fun _ => none)
      hitCacheRaw 1000 21600 2000 [pa1, pa2] [pa1] pa1 ⟨42, "news", 995⟩
      (by decide) (by decide) (by decide) (by decide)).1,
   (scorer_cache_hit ["news"] [] cityPrefs [] (fun _ => none) (fun _ => none)
      hitCacheRaw 1000 21600 2000 [pa1, pa2] [pa1] pa1 ⟨42, "news", 995⟩
      (by decide) (by decide) (by decide) (by decide)).2.1⟩

/-- C4: evaluation at the failing input.  When the oracle call for the
3-article batch fails outright (transport error or malformed payload), all
three articles do get the neutral default score 50 and category news, as the
claim says; but when the oracle returns a parsable partial result covering
only articles 1 and 2, the Scorer's output has only those two articles —
article 3 appears nowhere in the output, with no default annotation, contra
the claim (and contra the explicit backfill the sibling
`score_articles_for_theme` performs "so none are silently dropped"). -/
theorem scorer_partial_result_drops_articles :
    ((scoreArticlesWithClaude ["news"] [] (fun _ => none) [] 1000
        [pa1, pa2, pa3]).1 =
      [{ pa1 with score := 50, category := some "news" },
       { pa2 with score := 50, category := some "news" },
       { pa3 with score := 50, category := some "news" }]) ∧
    ((scoreArticlesWithClaude ["news"] [] scorerPartialOracle [] 1000
        [pa1, pa2, pa3]).1.length = 2) ∧
    (∀ x ∈ (scoreArticlesWithClaude ["news"] [] scorerPartialOracle [] 1000
        [pa1, pa2, pa3]).1, x.link ≠ pa3.link) := by
  decide

/-! ### Theme Selector and podcast-shown cache -/

/-- Replacing the value at key `k` makes lookups at `k` return the new
value, provided some entry with key `k` exists. -/
theorem lookup_map_replace_self {β : Type} (k : String) (v : β) :
    ∀ d : List (String × β), (d.find? (fun p => p.1 = k)).isSome = true →
      List.lookup k (d.map (fun p => if p.1 = k then (k, v) else p)) = some v
  | [], h => by simp at h
  | (k1, v1) :: rest, h => by
    by_cases h1 : k1 = k
    · subst h1
      rw [List.map_cons, if_pos (show (k1, v1).1 = k1 from rfl),
        List.lookup_cons_self]
    · rw [List.map_cons, if_neg (show ¬ (k1, v1).1 = k from h1)]
      have hne : ¬ k = k1 := fun hEq => h1 hEq.symm
      have hbeq : (k == k1) = false := by simpa using hne
      simp only [List.lookup_cons, hbeq]
      apply lookup_map_replace_self k v rest
      rwa [List.find?_cons_of_neg rest (by simpa using h1)] at h

/-- Python dict assignment: lookup at the assigned key gives the new value. -/
theorem lookup_upsert_self {β : Type} (k : String) (v : β) (d : List (String × β)) :
    List.lookup k (upsert k v d) = some v := by
  unfold upsert
  split
  · next h => exact lookup_map_replace_self k v d h
  · next h =>
    rw [List.lookup_append]
    have hnone : List.lookup k d = none := by
      rw [List.lookup_eq_none_iff]
      intro p hp
      rw [List.find?_isSome] at h
      push_neg at h
      have hne : ¬ p.1 = k := by simpa using h p hp
      simpa using fun hEq => hne hEq.symm
    rw [hnone]
    simp [List.lookup_cons]

/-- Once all selected urls are recorded, each maps to today's entry —
auxiliary: further marking preserves an existing today-entry. -/
theorem lookup_markShown_preserved (day : String) (now : Int) :
    ∀ (urls : List String) (cache : List (String × ShownEntry)) (u : String),
      List.lookup u cache = some ⟨day, now⟩ →
      List.lookup u (markShown day now urls cache) = some ⟨day, now⟩
  | [], _, _, h => h
  | u1 :: rest, cache, u, h => by
    have hstep : markShown day now (u1 :: rest) cache =
        markShown day now rest (upsert u1 ⟨day, now⟩ cache) := rfl
    rw [hstep]
    apply lookup_markShown_preserved day now rest _ u
    by_cases hEq : u = u1
    · subst hEq
      exact lookup_upsert_self u _ cache
    · rw [lookup_upsert_ne u1 _ cache u hEq]
      exact h

/-- Every marked url maps to today's `{day, shown_at}` entry afterwards. -/
theorem lookup_markShown_of_mem (day : String) (now : Int) :
    ∀ (urls : List String) (cache : List (String × ShownEntry)) (u : String),
      u ∈ urls →
      List.lookup u (markShown day now urls cache) = some ⟨day, now⟩
  | [], _, _, hu => absurd hu (List.not_mem_nil _)
  | u1 :: rest, cache, u, hu => by
    have hstep : markShown day now (u1 :: rest) cache =
        markShown day now rest (upsert u1 ⟨day, now⟩ cache) := rfl
    rw [hstep]
    rcases List.mem_cons.mp hu with rfl | hu2
    · exact lookup_markShown_preserved day now rest _ u (lookup_upsert_self u _ cache)
    · exact lookup_markShown_of_mem day now rest _ u hu2

/-- One theme-response record draws its article from the batch. -/
theorem themeEntryStep_mem (label : String) (now : Int) (batch : List PodArticle)
    (ac : List (PodArticle × Int) × List (String × ThemeCacheEntry))
    (sd : ThemeScoreData) :
    ∀ p ∈ (themeEntryStep label now batch ac sd).1, p ∈ ac.1 ∨ p.1 ∈ batch := by
  intro p hp
  unfold themeEntryStep at hp
  split at hp
  · exact Or.inl hp
  · split at hp
    · exact Or.inl hp
    · next a ha =>
      rcases List.mem_append.mp hp with hp2 | hp2
      · exact Or.inl hp2
      · rw [List.mem_singleton.mp hp2]
        exact Or.inr (List.getElem?_mem ha)

theorem themeScoresFold_mem (label : String) (now : Int) (batch : List PodArticle) :
    ∀ (scores : List ThemeScoreData)
      (ac : List (PodArticle × Int) × List (String × ThemeCacheEntry)),
      ∀ p ∈ (scores.foldl (themeEntryStep label now batch) ac).1,
        p ∈ ac.1 ∨ p.1 ∈ batch
  | [], _ => fun _ hp => Or.inl hp
  | sd :: rest, ac => by
    intro p hp
    rw [List.foldl_cons] at hp
    rcases themeScoresFold_mem label now batch rest _ p hp with hp2 | hp2
    · exact themeEntryStep_mem label now batch ac sd p hp2
    · exact Or.inr hp2

/-- Every scored pair of one batch comes from the accumulator or the batch. -/
theorem themeBatch_mem (label : String) (now : Int) (batch : List PodArticle)
    (resp : Option (List ThemeScoreData))
    (acc : List (PodArticle × Int) × List (String × ThemeCacheEntry)) :
    ∀ p ∈ (themeBatch label now batch resp acc).1, p ∈ acc.1 ∨ p.1 ∈ batch := by
  intro p hp
  simp only [themeBatch] at hp
  rcases List.mem_append.mp hp with hp2 | hp2
  · cases resp with
    | none =>
      rcases List.mem_append.mp hp2 with hp3 | hp3
      · exact Or.inl hp3
      · obtain ⟨a, ha, rfl⟩ := List.mem_map.mp hp3
        exact Or.inr ha
    | some scores => exact themeScoresFold_mem label now batch scores acc p hp2
  · obtain ⟨a, ha, rfl⟩ := List.mem_map.mp hp2
    exact Or.inr (List.mem_of_mem_filter ha)

theorem runThemeBatches_mem (label : String) (now : Int)
    (oracle : Nat → Option (List ThemeScoreData)) (U : List PodArticle) :
    ∀ (bs : List (List PodArticle)) (i : Nat)
      (acc : List (PodArticle × Int) × List (String × ThemeCacheEntry)),
      (∀ b ∈ bs, ∀ x ∈ b, x ∈ U) →
      ∀ p ∈ (runThemeBatches label now oracle i bs acc).1, p ∈ acc.1 ∨ p.1 ∈ U
  | [], _, _, _ => fun _ hp => Or.inl hp
  | b :: bs, i, acc, hbs => by
    intro p hp
    have hstep : runThemeBatches label now oracle i (b :: bs) acc =
        runThemeBatches label now oracle (i + 1) bs
          (themeBatch label now b (oracle i) acc) := rfl
    rw [hstep] at hp
    rcases runThemeBatches_mem label now oracle U bs (i + 1) _
      (fun b2 hb2 => hbs b2 (List.mem_cons_of_mem b hb2)) p hp with hp2 | hp2
    · rcases themeBatch_mem label now b (oracle i) acc p hp2 with hp3 | hp3
      · exact Or.inl hp3
      · exact Or.inr (hbs b (List.mem_cons_self b bs) p.1 hp3)
    · exact Or.inr hp2

/-- The theme scorer never invents articles: every scored pair's article is
an input article. -/
theorem scoreArticlesForTheme_mem (oracle : Nat → Option (List ThemeScoreData))
    (cache : List (String × ThemeCacheEntry)) (label : String) (now : Int)
    (articles : List PodArticle) :
    ∀ p ∈ (scoreArticlesForTheme oracle cache label now articles).1,
      p.1 ∈ articles := by
  intro p hp
  simp only [scoreArticlesForTheme] at hp
  split at hp
  · simp at hp
  · rcases runThemeBatches_mem label now oracle
      (articles.filter (fun a => (List.lookup (themeKey a.link label) cache).isNone))
      (chunksOf 10 (articles.filter
        (fun a => (List.lookup (themeKey a.link label) cache).isNone))) 0 _
      (chunksOf_subset 10 _) p hp with hp2 | hp2
    · obtain ⟨a, ha, hfa⟩ := List.mem_filterMap.mp hp2
      cases hl : List.lookup (themeKey a.link label) cache with
      | none => rw [hl] at hfa; simp at hfa
      | some e =>
        rw [hl] at hfa
        obtain ⟨e2, he2, hpe⟩ := Option.map_eq_some'.mp hfa
        rw [← hpe]
        exact ha
    · exact List.mem_of_mem_filter hp2

/-- Every bonus pick's article comes from the candidate list. -/
theorem pickBonus_mem (maxPerCat includeBonus : Int) :
    ∀ (l : List (PodArticle × Int × String)) (picked : List (PodArticle × Int × Int))
      (counts : String → Int),
      ∀ e ∈ pickBonus maxPerCat includeBonus l picked counts,
        e ∈ picked ∨ ∃ q ∈ l, e.1 = q.1
  | [], _, _ => fun _ he => Or.inl he
  | (a, ts, cat) :: rest, picked, counts => by
    intro e he
    unfold pickBonus at he
    split at he
    · rcases pickBonus_mem maxPerCat includeBonus rest picked counts e he with h | ⟨q, hq, hq1⟩
      · exact Or.inl h
      · exact Or.inr ⟨q, List.mem_cons_of_mem _ hq, hq1⟩
    · split at he
      · rcases List.mem_append.mp he with h | h
        · exact Or.inl h
        · rw [List.mem_singleton.mp h]
          exact Or.inr ⟨(a, ts, cat), List.mem_cons_self _ _, rfl⟩
      · rcases pickBonus_mem maxPerCat includeBonus rest (picked ++ [(a, ts, ts)]) _
          e he with h | ⟨q, hq, hq1⟩
        · rcases List.mem_append.mp h with h2 | h2
          · exact Or.inl h2
          · rw [List.mem_singleton.mp h2]
            exact Or.inr ⟨(a, ts, cat), List.mem_cons_self _ _, rfl⟩
        · exact Or.inr ⟨q, List.mem_cons_of_mem _ hq, hq1⟩

/-- No theme pick carries a link present in the loaded shown cache. -/
theorem podThemePicks_not_shown (cfg : PodcastSchedule) (today : DayConfig)
    (cachedArticles : List PodArticle) (shownCache : List (String × ShownEntry))
    (themeCache : List (String × ThemeCacheEntry))
    (oracle : Nat → Option (List ThemeScoreData)) (now : Int) (link : String)
    (hlink : (List.lookup link shownCache).isSome) :
    ∀ e ∈ podThemePicks cfg today cachedArticles shownCache themeCache oracle now,
      e.1.link ≠ link := by
  intro e he hEq
  unfold podThemePicks at he
  have h1 := List.mem_of_mem_take he
  have h2 := (List.mem_insertionSort finalScoreDescLe).mp h1
  obtain ⟨p, hp, hpe⟩ := List.mem_map.mp h2
  have hmem : p.1 ∈ podThemePool cfg today cachedArticles shownCache := by
    unfold podThemeScored at hp
    split at hp
    · obtain ⟨a, ha, rfl⟩ := List.mem_map.mp hp
      exact ha
    · exact scoreArticlesForTheme_mem oracle themeCache today.label now _ p hp
  have hnone := (List.mem_filter.mp hmem).2
  have he1 : e.1 = p.1 := by rw [← hpe]
  rw [he1] at hEq
  rw [hEq] at hnone
  rw [Option.isNone_iff_eq_none] at hnone
  rw [hnone] at hlink
  simp at hlink

/-- No bonus pick carries a link present in the loaded shown cache. -/
theorem podBonusPicks_not_shown (cfg : PodcastSchedule) (today : DayConfig)
    (cachedArticles : List PodArticle) (shownCache : List (String × ShownEntry))
    (themeCache : List (String × ThemeCacheEntry))
    (oracle oracle2 : Nat → Option (List ThemeScoreData)) (now : Int) (link : String)
    (hlink : (List.lookup link shownCache).isSome) :
    ∀ e ∈ podBonusPicks cfg today cachedArticles shownCache themeCache oracle
        oracle2 now,
      e.1.link ≠ link := by
  intro e he hEq
  simp only [podBonusPicks] at he
  split at he
  · split at he
    · simp at he
    · rcases pickBonus_mem _ _ _ [] _ e he with h | ⟨q, hq, hq1⟩
      · simp at h
      · have h2 := (List.mem_insertionSort themeScoreDescLe).mp hq
        obtain ⟨p, hp, hpq⟩ := List.mem_map.mp h2
        have h3 := scoreArticlesForTheme_mem oracle2 _ today.label now _ p hp
        have h4 := (List.mem_filter.mp h3).2
        rw [Bool.and_eq_true] at h4
        have hq1p : q.1 = p.1 := by rw [← hpq]
        rw [hq1, hq1p] at hEq
        have h5 := h4.2
        rw [hEq] at h5
        rw [Option.isNone_iff_eq_none] at h5
        rw [h5] at hlink
        simp at hlink
  · simp at he

/-- No article selected by `generate_podcast_feed` — theme pick or bonus
pick — carries a link present in the loaded shown cache. -/
theorem generatePodcastFeed_excludes_shown (cfg : PodcastSchedule)
    (themeName : String) (cachedArticles : List PodArticle)
    (shownCache : List (String × ShownEntry))
    (themeCache : List (String × ThemeCacheEntry))
    (oracle oracle2 : Nat → Option (List ThemeScoreData)) (now : Int) (link : String)
    (hlink : (List.lookup link shownCache).isSome) :
    ∀ e ∈ generatePodcastFeed cfg themeName cachedArticles shownCache themeCache
        oracle oracle2 now,
      e.1.link ≠ link := by
  intro e he
  unfold generatePodcastFeed at he
  split at he
  · simp at he
  · split at he
    · simp at he
    · rcases List.mem_append.mp he with h | h
      · exact podThemePicks_not_shown cfg _ cachedArticles shownCache themeCache
          oracle now link hlink e h
      · exact podBonusPicks_not_shown cfg _ cachedArticles shownCache themeCache
          oracle oracle2 now link hlink e h

/-- C7: for every fingerprint in the Podcast-Shown Cache whose shown-at
time is within the 7-day TTL of the run time `t1`, the Theme Selector run
at `t1` (loading that cache) does not select that article — neither among
the theme picks nor among the bonus picks; and every article the run does
select is marked shown, so that any later run within 7 days of `t1`
(loading the marked cache) excludes it in turn. -/
theorem podcast_shown_exclusion (cfg cfg2 : PodcastSchedule) (day day2 : String)
    (arts arts2 : List PodArticle) (rawShown : List (String × ShownEntry))
    (themeCache themeCache2 : List (String × ThemeCacheEntry))
    (o1 o2 o1b o2b : Nat → Option (List ThemeScoreData)) (t1 : Int)
    (link : String) (entry : ShownEntry)
    (hmem : (link, entry) ∈ rawShown)
    (hfresh : t1 - podcastShownTtlSeconds < entry.shownAt) :
    (∀ e ∈ generatePodcastFeed cfg day arts (loadPodcastShownCache rawShown t1)
        themeCache o1 o2 t1, e.1.link ≠ link) ∧
    (∀ e ∈ generatePodcastFeed cfg day arts (loadPodcastShownCache rawShown t1)
        themeCache o1 o2 t1,
      ∀ t2 : Int, t2 - podcastShownTtlSeconds < t1 →
      ∀ e2 ∈ generatePodcastFeed cfg2 day2 arts2
          (loadPodcastShownCache
            (markShown day t1
              ((generatePodcastFeed cfg day arts (loadPodcastShownCache rawShown t1)
                themeCache o1 o2 t1).map (fun x => x.1.link))
              (loadPodcastShownCache rawShown t1))
            t2)
          themeCache2 o1b o2b t2,
        e2.1.link ≠ e.1.link) := by
  have hload : (link, entry) ∈ loadPodcastShownCache rawShown t1 := by
    unfold loadPodcastShownCache
    exact List.mem_filter.mpr ⟨hmem, decide_eq_true hfresh⟩
  have hlink : (List.lookup link (loadPodcastShownCache rawShown t1)).isSome := by
    rw [List.lookup_isSome_iff]
    exact ⟨(link, entry), hload, by simp⟩
  constructor
  · exact generatePodcastFeed_excludes_shown cfg day arts _ themeCache o1 o2 t1
      link hlink
  · intro e he t2 ht2 e2 he2
    have hmarked : List.lookup e.1.link
        (markShown day t1
          ((generatePodcastFeed cfg day arts (loadPodcastShownCache rawShown t1)
            themeCache o1 o2 t1).map (fun x => x.1.link))
          (loadPodcastShownCache rawShown t1)) = some ⟨day, t1⟩ :=
      lookup_markShown_of_mem day t1 _ _ e.1.link
        (List.mem_map.mpr ⟨e, he, rfl⟩)
    have hloaded : List.lookup e.1.link
        (loadPodcastShownCache
          (markShown day t1
            ((generatePodcastFeed cfg day arts (loadPodcastShownCache rawShown t1)
              themeCache o1 o2 t1).map (fun x => x.1.link))
            (loadPodcastShownCache rawShown t1))
          t2) = some ⟨day, t1⟩ := by
      unfold loadPodcastShownCache
      exact lookup_filter_of_lookup _ _ _ _ hmarked (decide_eq_true ht2)
    exact generatePodcastFeed_excludes_shown cfg2 day2 arts2 _ themeCache2 o1b o2b
      t2 e.1.link (by rw [hloaded]; rfl) e2 he2

/-- C7 witness: with `podA1` (link L1) recently shown and `podA2` fresh, the
run at time 1000000 selects only `podA2`; L1 is excluded, and a run half a
day later with the marked cache no longer selects `podA2`'s link. -/
theorem podcast_shown_exclusion_witness :
    (∀ e ∈ generatePodcastFeed podCfg "monday" [podA1, podA2]
        (loadPodcastShownCache podShownRaw 1000000) [] podFailOracle podFailOracle
        1000000, e.1.link ≠ "L1") ∧
    (∀ e2 ∈ generatePodcastFeed podCfg "monday" [podA1, podA2]
        (loadPodcastShownCache
          (markShown "monday" 1000000
            ((generatePodcastFeed podCfg "monday" [podA1, podA2]
              (loadPodcastShownCache podShownRaw 1000000) [] podFailOracle
              podFailOracle 1000000).map (fun x => x.1.link))
            (loadPodcastShownCache podShownRaw 1000000))
          1050000)
        [] podFailOracle podFailOracle 1050000,
      e2.1.link ≠ "L2") :=
  ⟨(podcast_shown_exclusion podCfg podCfg "monday" "monday" [podA1, podA2]
      [podA1, podA2] podShownRaw [] [] podFailOracle podFailOracle podFailOracle
      podFailOracle 1000000 "L1" ⟨"monday", 999000⟩ (by decide) (by decide)).1,
   (podcast_shown_exclusion podCfg podCfg "monday" "monday" [podA1, podA2]
      [podA1, podA2] podShownRaw [] [] podFailOracle podFailOracle podFailOracle
      podFailOracle 1000000 "L1" ⟨"monday", 999000⟩ (by decide) (by decide)).2
     (podA2, 50, 50) (by decide) 1050000 (by decide)⟩

end SuperRss
